import Mathlib

/-!
Verification development for the chart-data-extractor backend
(`src/backend/main.py`).

The Python source is shallowly embedded below.  External libraries are
treated as parameters or abstracted values:

* `json.loads` / `json.dumps(·, indent=2, ensure_ascii=False)` are modelled
  by an executable JSON codec (`jparse` / `jdump`) over `JVal`.  JSON numbers
  are modelled as integers (`Int`); Python floats are outside the model, so
  the spec's `0.0` appears as the integer `0`.  The parser is fuelled and
  restricted to the grammar `json.loads` accepts on the modelled fragment
  (it is lenient about leading zeros, which no emitted text contains).
* PIL decoding/encoding is a parameter pair `decode : Bytes → Option Img`
  (decode failure models the `PIL` exception) and `enc : Img → String`
  (the base64-of-JPEG payload); image geometry is exact arithmetic, so the
  float `int(w * ratio)` of the source is the rational floor `w * m / M`.
* PyMuPDF page rendering and python-pptx shape scanning are represented by
  the page/slide data they deliver to the embedded code.
* openpyxl workbooks are modelled by their sheet list (name and cell rows);
  styling and column widths are presentation-only and not modelled.  The
  library's sheet-title validation is modelled: `wb.create_sheet(title=...)`
  raises `ValueError` for a title longer than 31 characters, and since
  `export_data` does not catch it, the exception surfaces as a 500 response.
  (The library's other title checks — illegal characters and emptiness —
  are unreachable here: `safe_sheet_name` replaces exactly the characters
  the library rejects and never returns the empty string.)
-/

namespace ChartSpec

/-! ### Characters that the hygiene rules keep out of literals -/

def obrace : Char := Char.ofNat 123

def cbrace : Char := Char.ofNat 125

def btick : Char := Char.ofNat 96

def squote : Char := Char.ofNat 39

/-! ### Whitespace

`isJWs` is exactly the whitespace `json.loads` skips; `isPyWs` is the ASCII
part of Python's `str.strip()` / regex `\s` class. -/

def isJWs (c : Char) : Bool :=
  c = ' ' || c = '\t' || c = '\n' || c = '\r'

def isPyWs (c : Char) : Bool :=
  c = ' ' || c = '\t' || c = '\n' || c = '\r' || c = Char.ofNat 11 || c = Char.ofNat 12

def jwsSkip : List Char → List Char
  | [] => []
  | c :: cs => if isJWs c then jwsSkip cs else c :: cs

/-! ### The JSON value model -/

/-- A JSON value as handled by `json.loads` / `json.dumps`, with numbers
restricted to integers (floats are outside the embedding).  Objects keep
their members in order, mirroring Python's insertion-ordered `dict`. -/
inductive JVal where
  | null : JVal
  | bool (b : Bool) : JVal
  | num (n : Int) : JVal
  | str (s : String) : JVal
  | arr (elts : List JVal) : JVal
  | obj (mems : List (String × JVal)) : JVal

/-- A chart document / chart object as carried by the API: a Python `dict`
with string keys, in insertion order. -/
abbrev JObj := List (String × JVal)

/-! ### Decimal digits (the shape `str(int)` and the JSON number grammar use) -/

def digitChar (d : Nat) : Char := Char.ofNat (48 + d)

/-- Decimal digit characters of `n`, most significant first; `[]` for `0`.
Fuel-structural so that it evaluates inside the kernel. -/
def natChars : Nat → Nat → List Char
  | 0, _ => []
  | f + 1, n => if n = 0 then [] else natChars f (n / 10) ++ [digitChar (n % 10)]

/-- The decimal rendering of a natural number, as Python's `str` writes it. -/
def natDec (n : Nat) : List Char := if n = 0 then [digitChar 0] else natChars (n + 1) n

/-- The decimal rendering of an integer (`str(int)` / JSON integer). -/
def intDec : Int → List Char
  | Int.ofNat n => natDec n
  | Int.negSucc n => '-' :: natDec (n + 1)

/-- Greedy digit run: accumulate `acc*10 + digit` until a non-digit. -/
def digitsRun : Nat → List Char → Nat × List Char
  | acc, [] => (acc, [])
  | acc, c :: cs =>
    if c.isDigit then digitsRun (acc * 10 + (c.toNat - 48)) cs else (acc, c :: cs)

/-! ### JSON string bodies: Python's escaping and its inverse -/

def hexDigit (n : Nat) : Char :=
  if n < 10 then Char.ofNat (48 + n) else Char.ofNat (87 + n)

def hexNat (c : Char) : Option Nat :=
  if c.isDigit then some (c.toNat - 48)
  else if 97 ≤ c.toNat && c.toNat ≤ 102 then some (c.toNat - 87)
  else if 65 ≤ c.toNat && c.toNat ≤ 70 then some (c.toNat - 55)
  else none

/-- How `json.dumps(·, ensure_ascii=False)` writes one character of a string:
quote and backslash escaped, the five short escapes, `\u00XX` for the other
control characters, everything else verbatim. -/
def escChar (c : Char) : List Char :=
  if c = '"' then ['\\', '"']
  else if c = '\\' then ['\\', '\\']
  else if c = '\n' then ['\\', 'n']
  else if c = '\t' then ['\\', 't']
  else if c = '\r' then ['\\', 'r']
  else if c = Char.ofNat 8 then ['\\', 'b']
  else if c = Char.ofNat 12 then ['\\', 'f']
  else if c.toNat < 32 then
    ['\\', 'u', '0', '0', hexDigit (c.toNat / 16), hexDigit (c.toNat % 16)]
  else [c]

def escBody (s : List Char) : List Char := (s.map escChar).flatten

def escSimple (e : Char) : Option Char :=
  if e = '"' then some '"'
  else if e = '\\' then some '\\'
  else if e = '/' then some '/'
  else if e = 'n' then some '\n'
  else if e = 't' then some '\t'
  else if e = 'r' then some '\r'
  else if e = 'b' then some (Char.ofNat 8)
  else if e = 'f' then some (Char.ofNat 12)
  else none

/-- Parse a JSON string body after the opening quote, undoing `escChar`;
strict about raw control characters, as `json.loads` is. -/
def strBody : List Char → Option (List Char × List Char)
  | [] => none
  | '"' :: cs => some ([], cs)
  | '\\' :: 'u' :: h1 :: h2 :: h3 :: h4 :: cs =>
    match hexNat h1, hexNat h2, hexNat h3, hexNat h4 with
    | some a, some b, some c, some d =>
      (strBody cs).map (fun p => (Char.ofNat (((a * 16 + b) * 16 + c) * 16 + d) :: p.1, p.2))
    | _, _, _, _ => none
  | '\\' :: e :: cs =>
    match escSimple e with
    | some c => (strBody cs).map (fun p => (c :: p.1, p.2))
    | none => none
  | c :: cs =>
    if c.toNat < 32 then none
    else (strBody cs).map (fun p => (c :: p.1, p.2))

/-! ### The fuelled JSON parser (model of `json.loads`)

A single function structural in its fuel, so the kernel can run it.  The
`PSyn` tag selects the grammar production: a value, the tail of a non-empty
array, or the tail of a non-empty object. -/

inductive PSyn where
  | pv : PSyn
  | pits : PSyn
  | pmem : PSyn

inductive PRes where
  | rv (v : JVal) (rest : List Char) : PRes
  | ri (vs : List JVal) (rest : List Char) : PRes
  | rm (ms : List (String × JVal)) (rest : List Char) : PRes

def litRest : List Char → List Char → Option (List Char)
  | [], cs => some cs
  | p :: ps, c :: cs => if c = p then litRest ps cs else none
  | _ :: _, [] => none

def pstep : Nat → PSyn → List Char → Option PRes
  | 0, _, _ => none
  | Nat.succ f, PSyn.pv, cs =>
    match jwsSkip cs with
    | [] => none
    | c :: r =>
      if c = 'n' then (litRest ['u', 'l', 'l'] r).map (PRes.rv JVal.null)
      else if c = 't' then (litRest ['r', 'u', 'e'] r).map (PRes.rv (JVal.bool true))
      else if c = 'f' then (litRest ['a', 'l', 's', 'e'] r).map (PRes.rv (JVal.bool false))
      else if c = '"' then
        match strBody r with
        | some (b, r1) => some (PRes.rv (JVal.str (String.mk b)) r1)
        | none => none
      else if c = '[' then
        match jwsSkip r with
        | [] => none
        | d :: r2 =>
          if d = ']' then some (PRes.rv (JVal.arr []) r2)
          else
            match pstep f PSyn.pits r with
            | some (PRes.ri vs rest) => some (PRes.rv (JVal.arr vs) rest)
            | _ => none
      else if c = obrace then
        match jwsSkip r with
        | [] => none
        | d :: r2 =>
          if d = cbrace then some (PRes.rv (JVal.obj []) r2)
          else
            match pstep f PSyn.pmem r with
            | some (PRes.rm ms rest) => some (PRes.rv (JVal.obj ms) rest)
            | _ => none
      else if c = '-' then
        match r with
        | d :: r2 =>
          if d.isDigit then
            let p := digitsRun 0 (d :: r2)
            some (PRes.rv (JVal.num (-(p.1 : Int))) p.2)
          else none
        | [] => none
      else if c.isDigit then
        let p := digitsRun 0 (c :: r)
        some (PRes.rv (JVal.num (Int.ofNat p.1)) p.2)
      else none
  | Nat.succ f, PSyn.pits, cs =>
    match pstep f PSyn.pv cs with
    | some (PRes.rv v cs1) =>
      (match jwsSkip cs1 with
       | c :: cs2 =>
         if c = ',' then
           match pstep f PSyn.pits cs2 with
           | some (PRes.ri vs rest) => some (PRes.ri (v :: vs) rest)
           | _ => none
         else if c = ']' then some (PRes.ri [v] cs2)
         else none
       | [] => none)
    | _ => none
  | Nat.succ f, PSyn.pmem, cs =>
    match jwsSkip cs with
    | c :: r =>
      if c = '"' then
        match strBody r with
        | some (k, r1) =>
          (match jwsSkip r1 with
           | c2 :: r2 =>
             if c2 = ':' then
               match pstep f PSyn.pv r2 with
               | some (PRes.rv v r3) =>
                 (match jwsSkip r3 with
                  | c3 :: r4 =>
                    if c3 = ',' then
                      match pstep f PSyn.pmem r4 with
                      | some (PRes.rm ms rest) => some (PRes.rm ((String.mk k, v) :: ms) rest)
                      | _ => none
                    else if c3 = cbrace then some (PRes.rm [(String.mk k, v)] r4)
                    else none
                  | [] => none)
               | _ => none
             else none
           | [] => none)
        | none => none
      else none
    | [] => none

def pVal (f : Nat) (cs : List Char) : Option (JVal × List Char) :=
  match pstep f PSyn.pv cs with
  | some (PRes.rv v r) => some (v, r)
  | _ => none

/-- The model of `json.loads`: parse a complete document, allowing only
trailing whitespace. -/
def jparse (s : String) : Option JVal :=
  match pVal (s.data.length + 1) s.data with
  | some (v, r) => if jwsSkip r = [] then some v else none
  | none => none

/-! ### The pretty emitter (model of `json.dumps(·, indent=2, ensure_ascii=False)`)

`emitVal d v` renders `v` as `json.dumps` does at nesting depth `d` (each
level indents by two spaces; empty containers stay inline; members use the
`": "` separator, items the `",\n"` one).  `emitItems d e x xs` renders a
non-empty array tail through its closing `]` at depth `e`; `emitMems`
likewise for objects. -/

def ind (n : Nat) : List Char := List.replicate n ' '

mutual

def emitVal : Nat → JVal → List Char
  | _, JVal.null => ['n', 'u', 'l', 'l']
  | _, JVal.bool true => ['t', 'r', 'u', 'e']
  | _, JVal.bool false => ['f', 'a', 'l', 's', 'e']
  | _, JVal.num i => intDec i
  | _, JVal.str s => '"' :: (escBody s.data ++ ['"'])
  | _, JVal.arr [] => ['[', ']']
  | d, JVal.arr (x :: xs) => '[' :: '\n' :: emitItems (d + 1) d x xs
  | _, JVal.obj [] => [obrace, cbrace]
  | d, JVal.obj (m :: ms) => obrace :: '\n' :: emitMems (d + 1) d m ms
termination_by _ v => sizeOf v

def emitItems (d e : Nat) (x : JVal) (xs : List JVal) : List Char :=
  ind (2 * d) ++ emitVal d x ++
    (match xs with
     | [] => '\n' :: (ind (2 * e) ++ [']'])
     | y :: ys => ',' :: '\n' :: emitItems d e y ys)
termination_by sizeOf x + sizeOf xs
decreasing_by all_goals (first
  | (simp; omega)
  | (cases xs <;> simp <;> omega))

def emitMems (d e : Nat) (m : String × JVal) (ms : List (String × JVal)) : List Char :=
  ind (2 * d) ++ '"' :: (escBody m.1.data ++ '"' :: ':' :: ' ' :: (emitVal d m.2 ++
    (match ms with
     | [] => '\n' :: (ind (2 * e) ++ [cbrace])
     | n :: ns => ',' :: '\n' :: emitMems d e n ns)))
termination_by sizeOf m + sizeOf ms
decreasing_by all_goals (cases m; simp; omega)

end

/-- `json.dumps(v, indent=2, ensure_ascii=False)` at top level. -/
def jdump (v : JVal) : String := String.mk (emitVal 0 v)

/-! ### Fuel needed by the parser on emitted text -/

mutual

def nval : JVal → Nat
  | JVal.arr (x :: xs) => 1 + nits x xs
  | JVal.obj (m :: ms) => 1 + nmem m ms
  | _ => 1
termination_by v => sizeOf v

def nits (x : JVal) (xs : List JVal) : Nat :=
  1 + max (nval x) (match xs with
    | [] => 0
    | y :: ys => nits y ys)
termination_by sizeOf x + sizeOf xs
decreasing_by all_goals (first
  | (simp; omega)
  | (cases xs <;> simp <;> omega))

def nmem (m : String × JVal) (ms : List (String × JVal)) : Nat :=
  1 + max (nval m.2) (match ms with
    | [] => 0
    | n :: ns => nmem n ns)
termination_by sizeOf m + sizeOf ms
decreasing_by all_goals (cases m; simp; omega)

end

/-! ### Facts about digits and whitespace -/

/-- `cs` cannot extend a digit run: empty, or headed by a non-digit.  Every
separator the emitter writes after a number (`,`, newline, `]`) qualifies. -/
def numStop : List Char → Bool
  | [] => true
  | c :: _ => !c.isDigit

theorem digitChar_spec {d : Nat} (h : d < 10) :
    (digitChar d).toNat = 48 + d ∧ (digitChar d).isDigit = true := by
  interval_cases d <;> exact ⟨by decide, by decide⟩

theorem isDigit_not_openers {c : Char} (h : c.isDigit = true) :
    c ≠ 'n' ∧ c ≠ 't' ∧ c ≠ 'f' ∧ c ≠ '"' ∧ c ≠ '[' ∧ c ≠ obrace ∧ c ≠ '-' := by
  refine ⟨?_, ?_, ?_, ?_, ?_, ?_, ?_⟩ <;> (intro he; subst he; exact absurd h (by decide))

theorem isDigit_not_closers {c : Char} (h : c.isDigit = true) :
    isJWs c = false ∧ c ≠ ']' ∧ c ≠ cbrace ∧ c ≠ ',' := by
  refine ⟨?_, ?_, ?_, ?_⟩ <;> first
    | (intro he; subst he; exact absurd h (by decide))
    | (cases hc : isJWs c with
       | false => rfl
       | true =>
         exfalso
         simp only [isJWs, Bool.or_eq_true, decide_eq_true_eq] at hc
         rcases hc with ((rfl | rfl) | rfl) | rfl <;> exact absurd h (by decide))

theorem jwsSkip_not {c : Char} {cs : List Char} (h : isJWs c = false) :
    jwsSkip (c :: cs) = c :: cs := by
  simp [jwsSkip, h]

theorem jwsSkip_ws {c : Char} {cs : List Char} (h : isJWs c = true) :
    jwsSkip (c :: cs) = jwsSkip cs := by
  simp [jwsSkip, h]

theorem jwsSkip_ind (n : Nat) (cs : List Char) : jwsSkip (ind n ++ cs) = jwsSkip cs := by
  induction n with
  | zero => rfl
  | succ k ih =>
    have : ind (k + 1) = ' ' :: ind k := by simp [ind, List.replicate_succ]
    rw [this, List.cons_append, jwsSkip_ws (by decide), ih]

theorem jwsSkip_nl (cs : List Char) : jwsSkip ('\n' :: cs) = jwsSkip cs :=
  jwsSkip_ws (by decide)

/-! ### The digit-run codec round trip -/

theorem digitsRun_stop {cs : List Char} (h : numStop cs = true) (acc : Nat) :
    digitsRun acc cs = (acc, cs) := by
  cases cs with
  | nil => rfl
  | cons c t =>
    simp only [numStop, Bool.not_eq_true'] at h
    simp [digitsRun, h]

theorem digitsRun_natChars :
    ∀ (f n acc : Nat) (rest : List Char), n < 10 ^ f →
      digitsRun acc (natChars f n ++ rest)
        = digitsRun (acc * 10 ^ (natChars f n).length + n) rest := by
  intro f
  induction f with
  | zero =>
    intro n acc rest hn
    interval_cases n
    simp [natChars]
  | succ k ih =>
    intro n acc rest hn
    by_cases h0 : n = 0
    · subst h0; simp [natChars]
    · have hdiv : n / 10 < 10 ^ k := by
        rw [Nat.div_lt_iff_lt_mul (by norm_num)]
        calc n < 10 ^ (k + 1) := hn
          _ = 10 ^ k * 10 := by ring
      have hmod : n % 10 < 10 := Nat.mod_lt _ (by norm_num)
      obtain ⟨hval, hdig⟩ := digitChar_spec hmod
      rw [show natChars (k + 1) n = natChars k (n / 10) ++ [digitChar (n % 10)] by
            simp [natChars, h0],
          List.append_assoc, List.cons_append, List.nil_append, ih _ _ _ hdiv,
          show digitsRun (acc * 10 ^ (natChars k (n / 10)).length + n / 10)
              (digitChar (n % 10) :: rest)
            = digitsRun ((acc * 10 ^ (natChars k (n / 10)).length + n / 10) * 10
                + ((digitChar (n % 10)).toNat - 48)) rest by simp [digitsRun, hdig]]
      rw [hval]
      congr 1
      have h48 : 48 + n % 10 - 48 = n % 10 := by omega
      rw [h48, List.length_append, List.length_singleton, pow_succ]
      have := Nat.div_add_mod n 10
      ring_nf
      omega

theorem digitsRun_natDec (n : Nat) (rest : List Char) (h : numStop rest = true) :
    digitsRun 0 (natDec n ++ rest) = (n, rest) := by
  by_cases h0 : n = 0
  · subst h0
    rw [show natDec 0 ++ rest = digitChar 0 :: rest by simp [natDec]]
    have ⟨hv, hd⟩ := digitChar_spec (show 0 < 10 by norm_num)
    rw [show digitsRun 0 (digitChar 0 :: rest)
          = digitsRun (0 * 10 + ((digitChar 0).toNat - 48)) rest by simp [digitsRun, hd],
        hv]
    simpa using digitsRun_stop h _
  · have hlt : n < 10 ^ (n + 1) :=
      lt_of_lt_of_le (Nat.lt_pow_self (by norm_num) n) (Nat.pow_le_pow_right (by norm_num) (by omega))
    rw [show natDec n = natChars (n + 1) n by simp [natDec, h0],
        digitsRun_natChars _ _ _ _ hlt]
    simpa using digitsRun_stop h _

theorem natChars_digits :
    ∀ (f n : Nat) (c : Char), c ∈ natChars f n → c.isDigit = true := by
  intro f
  induction f with
  | zero => intro n c hc; simp [natChars] at hc
  | succ k ih =>
    intro n c hc
    by_cases h0 : n = 0
    · subst h0; simp [natChars] at hc
    · rw [show natChars (k + 1) n = natChars k (n / 10) ++ [digitChar (n % 10)] by
          simp [natChars, h0]] at hc
      rcases List.mem_append.mp hc with hin | hin
      · exact ih _ _ hin
      · rw [List.mem_singleton] at hin
        subst hin
        exact (digitChar_spec (Nat.mod_lt _ (by norm_num))).2

theorem natDec_digits {n : Nat} {c : Char} (hc : c ∈ natDec n) : c.isDigit = true := by
  by_cases h0 : n = 0
  · subst h0
    rw [show natDec 0 = [digitChar 0] from rfl, List.mem_singleton] at hc
    subst hc
    exact (digitChar_spec (by norm_num)).2
  · rw [show natDec n = natChars (n + 1) n by simp [natDec, h0]] at hc
    exact natChars_digits _ _ _ hc

theorem natDec_cons (n : Nat) : ∃ c t, natDec n = c :: t ∧ c.isDigit = true := by
  match h : natDec n with
  | [] =>
    exfalso
    by_cases h0 : n = 0
    · subst h0; simp [natDec] at h
    · rw [show natDec n = natChars (n + 1) n by simp [natDec, h0]] at h
      simp only [natChars, h0, if_neg h0] at h
      exact absurd h (by simp)
  | c :: t =>
    exact ⟨c, t, rfl, natDec_digits (h ▸ List.mem_cons_self ..)⟩

/-! ### The string-body codec round trip -/

theorem hexNat_hexDigit {k : Nat} (h : k < 16) : hexNat (hexDigit k) = some k := by
  interval_cases k <;> decide

theorem strBody_escChar (c : Char) (t : List Char) :
    strBody (escChar c ++ t) = (strBody t).map (fun p => (c :: p.1, p.2)) := by
  by_cases h1 : c = '"'
  · subst h1; simp [escChar, strBody, escSimple]
  by_cases h2 : c = '\\'
  · subst h2; simp [escChar, strBody, escSimple]
  by_cases h3 : c = '\n'
  · subst h3; simp [escChar, strBody, escSimple]
  by_cases h4 : c = '\t'
  · subst h4; simp [escChar, strBody, escSimple]
  by_cases h5 : c = '\r'
  · subst h5; simp [escChar, strBody, escSimple]
  by_cases h6 : c = Char.ofNat 8
  · subst h6; simp [escChar, strBody, escSimple]
  by_cases h7 : c = Char.ofNat 12
  · subst h7; simp [escChar, strBody, escSimple]
  by_cases h8 : c.toNat < 32
  · have hhi : c.toNat / 16 < 16 := by omega
    have hlo : c.toNat % 16 < 16 := Nat.mod_lt _ (by norm_num)
    rw [show escChar c ++ t
          = '\\' :: 'u' :: '0' :: '0' :: hexDigit (c.toNat / 16)
              :: hexDigit (c.toNat % 16) :: t by
        simp [escChar, h1, h2, h3, h4, h5, h6, h7, h8]]
    rw [show strBody ('\\' :: 'u' :: '0' :: '0' :: hexDigit (c.toNat / 16)
              :: hexDigit (c.toNat % 16) :: t)
          = match hexNat '0', hexNat '0', hexNat (hexDigit (c.toNat / 16)),
              hexNat (hexDigit (c.toNat % 16)) with
            | some a, some b, some x, some d =>
              (strBody t).map
                (fun p => (Char.ofNat (((a * 16 + b) * 16 + x) * 16 + d) :: p.1, p.2))
            | _, _, _, _ => none from rfl]
    rw [hexNat_hexDigit hhi, hexNat_hexDigit hlo,
        show hexNat '0' = some 0 from rfl]
    have harith : ((0 * 16 + 0) * 16 + c.toNat / 16) * 16 + c.toNat % 16 = c.toNat := by
      omega
    change Option.map
        (fun p => (Char.ofNat (((0 * 16 + 0) * 16 + c.toNat / 16) * 16 + c.toNat % 16)
          :: p.1, p.2)) (strBody t)
      = Option.map (fun p => (c :: p.1, p.2)) (strBody t)
    rw [harith, Char.ofNat_toNat]
  · rw [show escChar c ++ t = c :: t by simp [escChar, h1, h2, h3, h4, h5, h6, h7, h8]]
    rw [strBody.eq_def]
    split <;> simp_all

theorem strBody_escBody (s : List Char) (rest : List Char) :
    strBody (escBody s ++ '"' :: rest) = some (s, rest) := by
  induction s with
  | nil => simp [escBody, strBody]
  | cons c s ih =>
    rw [show escBody (c :: s) = escChar c ++ escBody s by simp [escBody],
        List.append_assoc, strBody_escChar, ih]
    rfl

/-! ### Shape of emitted text -/

theorem jwsSkip_idem (cs : List Char) : jwsSkip (jwsSkip cs) = jwsSkip cs := by
  induction cs with
  | nil => rfl
  | cons c t ih =>
    by_cases h : isJWs c = true
    · rw [jwsSkip_ws h, ih]
    · rw [jwsSkip_not (by simpa using h), jwsSkip_not (by simpa using h)]

theorem emitVal_first (d : Nat) (v : JVal) :
    ∃ c t, emitVal d v = c :: t ∧ isJWs c = false ∧ c ≠ ']' ∧ c ≠ cbrace := by
  cases v with
  | null => exact ⟨'n', ['u', 'l', 'l'], by simp [emitVal], by decide, by decide, by decide⟩
  | bool b =>
    cases b with
    | true => exact ⟨'t', ['r', 'u', 'e'], by simp [emitVal], by decide, by decide, by decide⟩
    | false =>
      exact ⟨'f', ['a', 'l', 's', 'e'], by simp [emitVal], by decide, by decide, by decide⟩
  | num i =>
    cases i with
    | ofNat n =>
      obtain ⟨c, t, hnd, hdig⟩ := natDec_cons n
      obtain ⟨hws, hbr, hbc, _⟩ := isDigit_not_closers hdig
      exact ⟨c, t, by simp [emitVal, intDec, hnd], hws, hbr, hbc⟩
    | negSucc n =>
      exact ⟨'-', natDec (n + 1), by simp [emitVal, intDec], by decide, by decide, by decide⟩
  | str s =>
    exact ⟨'"', escBody s.data ++ ['"'], by simp [emitVal], by decide, by decide, by decide⟩
  | arr es =>
    cases es with
    | nil => exact ⟨'[', [']'], by simp [emitVal], by decide, by decide, by decide⟩
    | cons x xs =>
      exact ⟨'[', '\n' :: emitItems (d + 1) d x xs, by simp [emitVal],
        by decide, by decide, by decide⟩
  | obj ms =>
    cases ms with
    | nil => exact ⟨obrace, [cbrace], by simp [emitVal], by decide, by decide, by decide⟩
    | cons m ms =>
      exact ⟨obrace, '\n' :: emitMems (d + 1) d m ms, by simp [emitVal],
        by decide, by decide, by decide⟩

theorem jwsSkip_emitVal (d : Nat) (v : JVal) (x : List Char) :
    jwsSkip (emitVal d v ++ x) = emitVal d v ++ x := by
  obtain ⟨c, t, he, hws, _, _⟩ := emitVal_first d v
  rw [he, List.cons_append, jwsSkip_not hws]

theorem jwsSkip_emitItems (d e : Nat) (x : JVal) (xs : List JVal) (r : List Char) :
    ∃ c0 t0, jwsSkip (emitItems d e x xs ++ r) = c0 :: t0
      ∧ c0 ≠ ']' ∧ c0 ≠ cbrace := by
  obtain ⟨c, t, he, hws, hbr, hbc⟩ := emitVal_first d x
  refine ⟨c, ?_, ?_, hbr, hbc⟩
  · exact t ++ ((match xs with
      | [] => '\n' :: (ind (2 * e) ++ [']'])
      | y :: ys => ',' :: '\n' :: emitItems d e y ys) ++ r)
  · rw [show emitItems d e x xs ++ r
          = ind (2 * d) ++ (emitVal d x ++ ((match xs with
              | [] => '\n' :: (ind (2 * e) ++ [']'])
              | y :: ys => ',' :: '\n' :: emitItems d e y ys) ++ r)) by
        rw [emitItems.eq_def]
        simp [List.append_assoc]]
    rw [jwsSkip_ind, he, List.cons_append, jwsSkip_not hws]

theorem jwsSkip_emitMems (d e : Nat) (m : String × JVal) (ms : List (String × JVal))
    (r : List Char) :
    jwsSkip (emitMems d e m ms ++ r)
      = '"' :: (escBody m.1.data ++ '"' :: ':' :: ' ' :: (emitVal d m.2 ++
          ((match ms with
            | [] => '\n' :: (ind (2 * e) ++ [cbrace])
            | n :: ns => ',' :: '\n' :: emitMems d e n ns) ++ r))) := by
  rw [show emitMems d e m ms ++ r
        = ind (2 * d) ++ ('"' :: (escBody m.1.data ++ '"' :: ':' :: ' ' :: (emitVal d m.2 ++
            ((match ms with
              | [] => '\n' :: (ind (2 * e) ++ [cbrace])
              | n :: ns => ',' :: '\n' :: emitMems d e n ns) ++ r)))) by
      rw [emitMems.eq_def]
      simp [List.append_assoc]]
  rw [jwsSkip_ind, jwsSkip_not (by decide)]

theorem pstep_pv_wsSkip (f : Nat) (cs : List Char) :
    pstep (f + 1) PSyn.pv cs = pstep (f + 1) PSyn.pv (jwsSkip cs) := by
  rw [show pstep (f + 1) PSyn.pv (jwsSkip cs)
        = (match jwsSkip (jwsSkip cs) with
           | [] => none
           | c :: r =>
             if c = 'n' then (litRest ['u', 'l', 'l'] r).map (PRes.rv JVal.null)
             else if c = 't' then (litRest ['r', 'u', 'e'] r).map (PRes.rv (JVal.bool true))
             else if c = 'f' then
               (litRest ['a', 'l', 's', 'e'] r).map (PRes.rv (JVal.bool false))
             else if c = '"' then
               match strBody r with
               | some (b, r1) => some (PRes.rv (JVal.str (String.mk b)) r1)
               | none => none
             else if c = '[' then
               match jwsSkip r with
               | [] => none
               | d :: r2 =>
                 if d = ']' then some (PRes.rv (JVal.arr []) r2)
                 else
                   match pstep f PSyn.pits r with
                   | some (PRes.ri vs rest) => some (PRes.rv (JVal.arr vs) rest)
                   | _ => none
             else if c = obrace then
               match jwsSkip r with
               | [] => none
               | d :: r2 =>
                 if d = cbrace then some (PRes.rv (JVal.obj []) r2)
                 else
                   match pstep f PSyn.pmem r with
                   | some (PRes.rm ms rest) => some (PRes.rv (JVal.obj ms) rest)
                   | _ => none
             else if c = '-' then
               match r with
               | d :: r2 =>
                 if d.isDigit then
                   let p := digitsRun 0 (d :: r2)
                   some (PRes.rv (JVal.num (-(p.1 : Int))) p.2)
                 else none
               | [] => none
             else if c.isDigit then
               let p := digitsRun 0 (c :: r)
               some (PRes.rv (JVal.num (Int.ofNat p.1)) p.2)
             else none) from rfl,
      jwsSkip_idem]
  rfl

/-! ### The codec round trip: parsing emitted text recovers the value -/

theorem nval_pos (v : JVal) : 1 ≤ nval v := by
  cases v with
  | arr es => cases es <;> simp [nval]
  | obj ms => cases ms <;> simp [nval]
  | null => simp [nval]
  | bool b => simp [nval]
  | num i => simp [nval]
  | str s => simp [nval]

theorem nits_pos (x : JVal) (xs : List JVal) : 1 ≤ nits x xs := by
  rw [nits.eq_def]
  omega

theorem nmem_pos (m : String × JVal) (ms : List (String × JVal)) : 1 ≤ nmem m ms := by
  rw [nmem.eq_def]
  omega

theorem pits_step (f : Nat) (cs : List Char) (v : JVal) (cs1 : List Char)
    (h : pstep f PSyn.pv cs = some (PRes.rv v cs1)) :
    pstep (f + 1) PSyn.pits cs
      = (match jwsSkip cs1 with
         | c :: cs2 =>
           if c = ',' then
             match pstep f PSyn.pits cs2 with
             | some (PRes.ri vs rest) => some (PRes.ri (v :: vs) rest)
             | _ => none
           else if c = ']' then some (PRes.ri [v] cs2)
           else none
         | [] => none) := by
  have h0 : pstep (f + 1) PSyn.pits cs
      = (match pstep f PSyn.pv cs with
         | some (PRes.rv v0 cs1') =>
           (match jwsSkip cs1' with
            | c :: cs2 =>
              if c = ',' then
                match pstep f PSyn.pits cs2 with
                | some (PRes.ri vs rest) => some (PRes.ri (v0 :: vs) rest)
                | _ => none
              else if c = ']' then some (PRes.ri [v0] cs2)
              else none
            | [] => none)
         | _ => none) := rfl
  rw [h0, h]
mutual

theorem parse_emitVal :
    ∀ (v : JVal) (d f : Nat) (rest : List Char),
      nval v ≤ f → numStop rest = true →
      pstep f PSyn.pv (emitVal d v ++ rest) = some (PRes.rv v rest)
  | JVal.null, d, f, rest, hf, hr => by
    cases f with
    | zero => exact absurd (le_trans (nval_pos _) hf) (by omega)
    | succ f =>
      rw [show emitVal d JVal.null ++ rest = 'n' :: 'u' :: 'l' :: 'l' :: rest by
        simp [emitVal]]
      rfl
  | JVal.bool true, d, f, rest, hf, hr => by
    cases f with
    | zero => exact absurd (le_trans (nval_pos _) hf) (by omega)
    | succ f =>
      rw [show emitVal d (JVal.bool true) ++ rest = 't' :: 'r' :: 'u' :: 'e' :: rest by
        simp [emitVal]]
      rfl
  | JVal.bool false, d, f, rest, hf, hr => by
    cases f with
    | zero => exact absurd (le_trans (nval_pos _) hf) (by omega)
    | succ f =>
      rw [show emitVal d (JVal.bool false) ++ rest
          = 'f' :: 'a' :: 'l' :: 's' :: 'e' :: rest by simp [emitVal]]
      rfl
  | JVal.num (Int.ofNat n), d, f, rest, hf, hr => by
    cases f with
    | zero => exact absurd (le_trans (nval_pos _) hf) (by omega)
    | succ f =>
      obtain ⟨c, t, hnd, hdig⟩ := natDec_cons n
      obtain ⟨h1, h2, h3, h4, h5, h6, h7⟩ := isDigit_not_openers hdig
      obtain ⟨hws, _, _, _⟩ := isDigit_not_closers hdig
      rw [show emitVal d (JVal.num (Int.ofNat n)) ++ rest = c :: (t ++ rest) by
        simp [emitVal, intDec, hnd]]
      simp only [pstep, jwsSkip_not hws]
      simp only [h1, h2, h3, h4, h5, h6, h7, if_false, hdig, if_true]
      rw [show c :: (t ++ rest) = natDec n ++ rest by rw [hnd]; rfl,
          digitsRun_natDec n rest hr]
  | JVal.num (Int.negSucc n), d, f, rest, hf, hr => by
    cases f with
    | zero => exact absurd (le_trans (nval_pos _) hf) (by omega)
    | succ f =>
      obtain ⟨c, t, hnd, hdig⟩ := natDec_cons (n + 1)
      rw [show emitVal d (JVal.num (Int.negSucc n)) ++ rest
          = '-' :: (natDec (n + 1) ++ rest) by simp [emitVal, intDec]]
      rw [hnd]
      simp only [List.cons_append]
      have hred : pstep (f + 1) PSyn.pv ('-' :: c :: (t ++ rest))
          = (if c.isDigit then
               some (PRes.rv
                 (JVal.num (-((digitsRun 0 (c :: (t ++ rest))).1 : Int)))
                 (digitsRun 0 (c :: (t ++ rest))).2)
             else none) := rfl
      rw [hred, if_pos hdig,
          show c :: (t ++ rest) = natDec (n + 1) ++ rest by rw [hnd]; rfl,
          digitsRun_natDec (n + 1) rest hr]
      norm_num [Int.negSucc_eq]
  | JVal.str s, d, f, rest, hf, hr => by
    cases f with
    | zero => exact absurd (le_trans (nval_pos _) hf) (by omega)
    | succ f =>
      rw [show emitVal d (JVal.str s) ++ rest
          = '"' :: (escBody s.data ++ ('"' :: rest)) by simp [emitVal]]
      have hred : pstep (f + 1) PSyn.pv ('"' :: (escBody s.data ++ ('"' :: rest)))
          = (match strBody (escBody s.data ++ ('"' :: rest)) with
             | some (b, r1) => some (PRes.rv (JVal.str (String.mk b)) r1)
             | none => none) := rfl
      rw [hred, strBody_escBody]
  | JVal.arr [], d, f, rest, hf, hr => by
    cases f with
    | zero => exact absurd (le_trans (nval_pos _) hf) (by omega)
    | succ f =>
      rw [show emitVal d (JVal.arr []) ++ rest = '[' :: ']' :: rest by simp [emitVal]]
      rfl
  | JVal.arr (x :: xs), d, f, rest, hf, hr => by
    cases f with
    | zero => exact absurd (le_trans (nval_pos _) hf) (by omega)
    | succ f =>
      rw [show emitVal d (JVal.arr (x :: xs)) ++ rest
          = '[' :: ('\n' :: (emitItems (d + 1) d x xs ++ rest)) by simp [emitVal]]
      have hred : pstep (f + 1) PSyn.pv
            ('[' :: ('\n' :: (emitItems (d + 1) d x xs ++ rest)))
          = (match jwsSkip ('\n' :: (emitItems (d + 1) d x xs ++ rest)) with
             | [] => none
             | d0 :: r2 =>
               if d0 = ']' then some (PRes.rv (JVal.arr []) r2)
               else
                 match pstep f PSyn.pits ('\n' :: (emitItems (d + 1) d x xs ++ rest)) with
                 | some (PRes.ri vs rest') => some (PRes.rv (JVal.arr vs) rest')
                 | _ => none) := rfl
      obtain ⟨c0, t0, hsk, hbr, _⟩ := jwsSkip_emitItems (d + 1) d x xs rest
      have hfa : nits x xs ≤ f := by
        rw [show nval (JVal.arr (x :: xs)) = 1 + nits x xs by simp [nval]] at hf
        omega
      rw [hred, jwsSkip_nl, hsk]
      simp only []
      rw [if_neg hbr, parse_emitItems x xs (d + 1) d f rest hfa]
  | JVal.obj [], d, f, rest, hf, hr => by
    cases f with
    | zero => exact absurd (le_trans (nval_pos _) hf) (by omega)
    | succ f =>
      rw [show emitVal d (JVal.obj []) ++ rest = obrace :: cbrace :: rest by
        simp [emitVal]]
      rfl
  | JVal.obj (m :: ms), d, f, rest, hf, hr => by
    cases f with
    | zero => exact absurd (le_trans (nval_pos _) hf) (by omega)
    | succ f =>
      rw [show emitVal d (JVal.obj (m :: ms)) ++ rest
          = obrace :: ('\n' :: (emitMems (d + 1) d m ms ++ rest)) by simp [emitVal]]
      have hred : pstep (f + 1) PSyn.pv
            (obrace :: ('\n' :: (emitMems (d + 1) d m ms ++ rest)))
          = (match jwsSkip ('\n' :: (emitMems (d + 1) d m ms ++ rest)) with
             | [] => none
             | d0 :: r2 =>
               if d0 = cbrace then some (PRes.rv (JVal.obj []) r2)
               else
                 match pstep f PSyn.pmem ('\n' :: (emitMems (d + 1) d m ms ++ rest)) with
                 | some (PRes.rm ms' rest') => some (PRes.rv (JVal.obj ms') rest')
                 | _ => none) := rfl
      have hfm : nmem m ms ≤ f := by
        rw [show nval (JVal.obj (m :: ms)) = 1 + nmem m ms by simp [nval]] at hf
        omega
      rw [hred, jwsSkip_nl, jwsSkip_emitMems]
      simp only []
      rw [if_neg (by decide), parse_emitMems m ms (d + 1) d f rest hfm]
termination_by v _ _ _ _ _ => sizeOf v

theorem parse_emitItems :
    ∀ (x : JVal) (xs : List JVal) (d e f : Nat) (rest : List Char), nits x xs ≤ f →
      pstep f PSyn.pits ('\n' :: (emitItems d e x xs ++ rest))
        = some (PRes.ri (x :: xs) rest)
  | x, [], d, e, f, rest, hf => by
    cases f with
    | zero => exact absurd (le_trans (nits_pos _ _) hf) (by omega)
    | succ f =>
      have hfx : nval x ≤ f := by
        rw [nits.eq_def] at hf
        simp only [] at hf
        omega
      have hbody : '\n' :: (emitItems d e x [] ++ rest)
          = '\n' :: (ind (2 * d) ++ (emitVal d x
              ++ ('\n' :: (ind (2 * e) ++ (']' :: rest))))) := by
        rw [emitItems.eq_def]
        simp [List.append_assoc]
      have hv : pstep f PSyn.pv ('\n' :: (ind (2 * d) ++ (emitVal d x
            ++ ('\n' :: (ind (2 * e) ++ (']' :: rest))))))
          = some (PRes.rv x ('\n' :: (ind (2 * e) ++ (']' :: rest)))) := by
        cases f with
        | zero => exact absurd (le_trans (nval_pos x) hfx) (by omega)
        | succ f2 =>
          rw [pstep_pv_wsSkip, jwsSkip_nl, jwsSkip_ind, jwsSkip_emitVal]
          exact parse_emitVal x d (f2 + 1) _ hfx rfl
      rw [hbody, pits_step f _ x _ hv, jwsSkip_nl, jwsSkip_ind,
          jwsSkip_not (by decide)]
      rfl
  | x, y :: ys, d, e, f, rest, hf => by
    cases f with
    | zero => exact absurd (le_trans (nits_pos _ _) hf) (by omega)
    | succ f =>
      have hfx : nval x ≤ f := by
        rw [nits.eq_def] at hf
        simp only [] at hf
        have := le_max_left (nval x) (nits y ys)
        omega
      have hbody : '\n' :: (emitItems d e x (y :: ys) ++ rest)
          = '\n' :: (ind (2 * d) ++ (emitVal d x
              ++ (',' :: ('\n' :: (emitItems d e y ys ++ rest))))) := by
        rw [emitItems.eq_def]
        simp [List.append_assoc]
      have hv : pstep f PSyn.pv ('\n' :: (ind (2 * d) ++ (emitVal d x
            ++ (',' :: ('\n' :: (emitItems d e y ys ++ rest))))))
          = some (PRes.rv x (',' :: ('\n' :: (emitItems d e y ys ++ rest)))) := by
        cases f with
        | zero => exact absurd (le_trans (nval_pos x) hfx) (by omega)
        | succ f2 =>
          rw [pstep_pv_wsSkip, jwsSkip_nl, jwsSkip_ind, jwsSkip_emitVal]
          exact parse_emitVal x d (f2 + 1) _ hfx rfl
      have hfy : nits y ys ≤ f := by
        rw [nits.eq_def] at hf
        simp only [] at hf
        have := le_max_right (nval x) (nits y ys)
        omega
      rw [hbody, pits_step f _ x _ hv, jwsSkip_not (by decide)]
      simp only []
      rw [if_pos trivial, parse_emitItems y ys d e f rest hfy]
termination_by x xs _ _ _ _ _ => sizeOf x + sizeOf xs

theorem parse_emitMems :
    ∀ (m : String × JVal) (ms : List (String × JVal)) (d e f : Nat) (rest : List Char),
      nmem m ms ≤ f →
      pstep f PSyn.pmem ('\n' :: (emitMems d e m ms ++ rest))
        = some (PRes.rm (m :: ms) rest)
  | (k, v), [], d, e, f, rest, hf => by
    cases f with
    | zero => exact absurd (le_trans (nmem_pos _ _) hf) (by omega)
    | succ f =>
      have hfv : nval v ≤ f := by
        rw [nmem.eq_def] at hf
        simp only [] at hf
        omega
      have hred : pstep (f + 1) PSyn.pmem ('\n' :: (emitMems d e (k, v) [] ++ rest))
          = (match jwsSkip ('\n' :: (emitMems d e (k, v) [] ++ rest)) with
             | c :: r =>
               if c = '"' then
                 match strBody r with
                 | some (k0, r1) =>
                   (match jwsSkip r1 with
                    | c2 :: r2 =>
                      if c2 = ':' then
                        match pstep f PSyn.pv r2 with
                        | some (PRes.rv v0 r3) =>
                          (match jwsSkip r3 with
                           | c3 :: r4 =>
                             if c3 = ',' then
                               match pstep f PSyn.pmem r4 with
                               | some (PRes.rm ms' rest') =>
                                 some (PRes.rm ((String.mk k0, v0) :: ms') rest')
                               | _ => none
                             else if c3 = cbrace then
                               some (PRes.rm [(String.mk k0, v0)] r4)
                             else none
                           | [] => none)
                        | _ => none
                      else none
                    | [] => none)
                 | none => none
               else none
             | [] => none) := rfl
      rw [hred, jwsSkip_nl, jwsSkip_emitMems]
      rw [show escBody (k, v).1.data ++ '"' :: ':' :: ' ' :: (emitVal d (k, v).2 ++
            (('\n' :: (ind (2 * e) ++ [cbrace])) ++ rest))
          = escBody k.data ++ ('"' :: (':' :: ' ' :: (emitVal d v ++
            ('\n' :: (ind (2 * e) ++ (cbrace :: rest)))))) by simp]
      simp only []
      rw [if_pos trivial, strBody_escBody]
      simp only []
      rw [jwsSkip_not (by decide)]
      simp only []
      rw [if_pos trivial]
      have hv : pstep f PSyn.pv (' ' :: (emitVal d v ++
            ('\n' :: (ind (2 * e) ++ (cbrace :: rest)))))
          = some (PRes.rv v ('\n' :: (ind (2 * e) ++ (cbrace :: rest)))) := by
        cases f with
        | zero => exact absurd (le_trans (nval_pos v) hfv) (by omega)
        | succ f2 =>
          rw [pstep_pv_wsSkip, jwsSkip_ws (by decide), jwsSkip_emitVal]
          exact parse_emitVal v d (f2 + 1) _ hfv rfl
      rw [hv]
      simp only []
      rw [jwsSkip_nl, jwsSkip_ind, jwsSkip_not (by decide)]
      simp only []
      rw [if_neg (by decide), if_pos trivial]
  | (k, v), n :: ns, d, e, f, rest, hf => by
    cases f with
    | zero => exact absurd (le_trans (nmem_pos _ _) hf) (by omega)
    | succ f =>
      have hfv : nval v ≤ f := by
        rw [nmem.eq_def] at hf
        simp only [] at hf
        have := le_max_left (nval v) (nmem n ns)
        omega
      have hred : pstep (f + 1) PSyn.pmem ('\n' :: (emitMems d e (k, v) (n :: ns) ++ rest))
          = (match jwsSkip ('\n' :: (emitMems d e (k, v) (n :: ns) ++ rest)) with
             | c :: r =>
               if c = '"' then
                 match strBody r with
                 | some (k0, r1) =>
                   (match jwsSkip r1 with
                    | c2 :: r2 =>
                      if c2 = ':' then
                        match pstep f PSyn.pv r2 with
                        | some (PRes.rv v0 r3) =>
                          (match jwsSkip r3 with
                           | c3 :: r4 =>
                             if c3 = ',' then
                               match pstep f PSyn.pmem r4 with
                               | some (PRes.rm ms' rest') =>
                                 some (PRes.rm ((String.mk k0, v0) :: ms') rest')
                               | _ => none
                             else if c3 = cbrace then
                               some (PRes.rm [(String.mk k0, v0)] r4)
                             else none
                           | [] => none)
                        | _ => none
                      else none
                    | [] => none)
                 | none => none
               else none
             | [] => none) := rfl
      rw [hred, jwsSkip_nl, jwsSkip_emitMems]
      rw [show escBody (k, v).1.data ++ '"' :: ':' :: ' ' :: (emitVal d (k, v).2 ++
            ((',' :: '\n' :: emitMems d e n ns) ++ rest))
          = escBody k.data ++ ('"' :: (':' :: ' ' :: (emitVal d v ++
            (',' :: ('\n' :: (emitMems d e n ns ++ rest)))))) by simp]
      simp only []
      rw [if_pos trivial, strBody_escBody]
      simp only []
      rw [jwsSkip_not (by decide)]
      simp only []
      rw [if_pos trivial]
      have hv : pstep f PSyn.pv (' ' :: (emitVal d v ++
            (',' :: ('\n' :: (emitMems d e n ns ++ rest)))))
          = some (PRes.rv v (',' :: ('\n' :: (emitMems d e n ns ++ rest)))) := by
        cases f with
        | zero => exact absurd (le_trans (nval_pos v) hfv) (by omega)
        | succ f2 =>
          rw [pstep_pv_wsSkip, jwsSkip_ws (by decide), jwsSkip_emitVal]
          exact parse_emitVal v d (f2 + 1) _ hfv rfl
      have hfn : nmem n ns ≤ f := by
        rw [nmem.eq_def] at hf
        simp only [] at hf
        have := le_max_right (nval v) (nmem n ns)
        omega
      rw [hv]
      simp only []
      rw [jwsSkip_not (by decide)]
      simp only []
      rw [if_pos trivial, parse_emitMems n ns d e f rest hfn]
termination_by m ms _ _ _ _ _ => sizeOf m + sizeOf ms

end

/-! ### Enough fuel: the parser's need is bounded by the emitted length -/

theorem intDec_ne_nil (i : Int) : intDec i ≠ [] := by
  cases i with
  | ofNat n =>
    obtain ⟨c, t, hnd, _⟩ := natDec_cons n
    simp [intDec, hnd]
  | negSucc n => simp [intDec]

mutual

theorem nval_le_emit : ∀ (v : JVal) (d : Nat), nval v ≤ (emitVal d v).length
  | JVal.null, d => by simp [emitVal, nval]
  | JVal.bool true, d => by simp [emitVal, nval]
  | JVal.bool false, d => by simp [emitVal, nval]
  | JVal.num i, d => by
    have := intDec_ne_nil i
    have hlen : 1 ≤ (intDec i).length := by
      cases h : intDec i with
      | nil => exact absurd h this
      | cons a t => simp
    simp only [emitVal, nval]
    omega
  | JVal.str s, d => by simp [emitVal, nval]
  | JVal.arr [], d => by simp [emitVal, nval]
  | JVal.arr (x :: xs), d => by
    have h := nits_le_emit x xs (d + 1) d
    simp only [emitVal, nval, List.length_cons]
    omega
  | JVal.obj [], d => by simp [emitVal, nval]
  | JVal.obj (m :: ms), d => by
    have h := nmem_le_emit m ms (d + 1) d
    simp only [emitVal, nval, List.length_cons]
    omega
termination_by v _ => sizeOf v

theorem nits_le_emit : ∀ (x : JVal) (xs : List JVal) (d e : Nat),
    nits x xs ≤ (emitItems d e x xs).length
  | x, [], d, e => by
    have h := nval_le_emit x d
    rw [nits.eq_def, emitItems.eq_def]
    simp only [List.length_append, List.length_cons]
    omega
  | x, y :: ys, d, e => by
    have h := nval_le_emit x d
    have h2 := nits_le_emit y ys d e
    rw [nits.eq_def, emitItems.eq_def]
    simp only [List.length_append, List.length_cons]
    omega
termination_by x xs _ _ => sizeOf x + sizeOf xs

theorem nmem_le_emit : ∀ (m : String × JVal) (ms : List (String × JVal)) (d e : Nat),
    nmem m ms ≤ (emitMems d e m ms).length
  | m, [], d, e => by
    have h := nval_le_emit m.2 d
    rw [nmem.eq_def, emitMems.eq_def]
    simp only [List.length_append, List.length_cons]
    omega
  | m, n :: ns, d, e => by
    have h := nval_le_emit m.2 d
    have h2 := nmem_le_emit n ns d e
    rw [nmem.eq_def, emitMems.eq_def]
    simp only [List.length_append, List.length_cons]
    omega
termination_by m ms _ _ => sizeOf m + sizeOf ms
decreasing_by all_goals (cases m; simp; omega)

end

/-- The codec round trip: re-parsing pretty-printed JSON recovers the value.
This is the heart of the JSON export round-trip property. -/
theorem jparse_jdump (v : JVal) : jparse (jdump v) = some v := by
  have hlen : nval v ≤ (emitVal 0 v).length + 1 :=
    le_trans (nval_le_emit v 0) (by omega)
  have h := parse_emitVal v 0 ((emitVal 0 v).length + 1) [] hlen rfl
  rw [List.append_nil] at h
  have hstart : jparse (jdump v)
      = (match pVal ((emitVal 0 v).length + 1) (emitVal 0 v) with
         | some (v0, r) => if jwsSkip r = [] then some v0 else none
         | none => none) := rfl
  have hpv : pVal ((emitVal 0 v).length + 1) (emitVal 0 v) = some (v, []) := by
    simp only [pVal]
    rw [h]
  rw [hstart, hpv]
  rfl

/-! ## `/api/extract` response handling (`main.py` lines 206-256)

`pyStrip` is `str.strip()`, `stripLeadFence` / `stripTrailFence` are the two
`re.sub` fence strips, and `firstBraceSpan` is the greedy DOTALL
`re.search(r"\{.*\}", ·)` salvage. -/

def pyStrip (s : String) : String :=
  String.mk (((s.data.dropWhile isPyWs).reverse.dropWhile isPyWs).reverse)

/-- `re.sub(r"^```(?:json)?\s*", "", text)`: one leading markdown fence with an
optional `json` tag, then greedy whitespace. -/
def stripLeadFence (s : String) : String :=
  match s.data with
  | c1 :: c2 :: c3 :: rest =>
    if c1 = btick ∧ c2 = btick ∧ c3 = btick then
      match rest with
      | 'j' :: 's' :: 'o' :: 'n' :: r2 => String.mk (r2.dropWhile isPyWs)
      | _ => String.mk (rest.dropWhile isPyWs)
    else s
  | _ => s

/-- `re.sub(r"\s*```$", "", text)`: a trailing fence with the whitespace before
it; `$` also matches just before one final newline, which is then kept. -/
def stripTrailFence (s : String) : String :=
  let r := s.data.reverse
  if r.take 3 = [btick, btick, btick] then
    String.mk (((r.drop 3).dropWhile isPyWs).reverse)
  else if r.take 4 = ['\n', btick, btick, btick] then
    String.mk ((((r.drop 4).dropWhile isPyWs).reverse) ++ ['\n'])
  else s

def stripFences (s : String) : String := stripTrailFence (stripLeadFence s)

/-- `re.search(r"\{.*\}", text, re.DOTALL)`: greedy, so the match runs from the
first `\x7b` to the last `\x7d` when the former strictly precedes the latter. -/
def firstBraceSpan (s : String) : Option String :=
  match s.data.findIdx? (fun c => c = obrace),
      s.data.reverse.findIdx? (fun c => c = cbrace) with
  | some i, some jr =>
    let j := s.data.length - 1 - jr
    if i < j then some (String.mk ((s.data.drop i).take (j - i + 1))) else none
  | _, _ => none

/-- The empty/no-charts fallback document of line 254 (`0.0` is the integer
`0` in this model). -/
def emptyDoc : JVal :=
  JVal.obj [("has_charts", JVal.bool false), ("confidence", JVal.num 0),
    ("charts", JVal.arr [])]

/-- Response handling of `extract_chart` (lines 236-254): strip the reply text
and its fences, try `json.loads`; on failure salvage the first brace span of
the fence-stripped text (the reassigned `text` variable), and fall back to
`emptyDoc` — a parse failure never escapes this function. -/
def parseReply (raw : String) : JVal :=
  let text := stripFences (pyStrip raw)
  match jparse text with
  | some v => v
  | none =>
    match firstBraceSpan text with
    | some sub => (jparse sub).getD emptyDoc
    | none => emptyDoc

structure HErr where
  code : Nat
  msg : String

structure ExtractRequest where
  image : String
  media_type : String := "image/jpeg"

/-- The `/api/extract` endpoint (lines 206-256), given the text of the model's
reply.  The transport exchange is external; its genuine failures surface as
the separate 500 branch of line 256 and are outside this pure model. -/
def extract_chart (req : ExtractRequest) (replyText : String) : Except HErr JVal :=
  if req.image = "" then Except.error ⟨400, "Empty image data"⟩
  else Except.ok (parseReply replyText)

/-! ## The image normalizer and `/api/upload` (`main.py` lines 46-57, 129-198)

External image machinery is parameterised: `decode : Bytes → Option Img`
models `PIL.Image.open` plus mode conversion (`none` is the undecodable-input
exception; dimensions are unchanged by mode conversion), and
`enc : Img → String` models JPEG re-encoding plus base64. -/

def Bytes := List Nat

/-- A decoded bitmap, by its pixel dimensions. -/
structure Img where
  w : Nat
  h : Nat

/-- The resize arithmetic of lines 51-54: if the longer side exceeds
`max_side`, scale both sides by `max_side / max(w, h)`, truncating; otherwise
leave the image alone.  Exact-arithmetic model of `int(w * ratio)`. -/
def compressDims (w h max_side : Nat) : Nat × Nat :=
  if max_side < max w h then
    (w * max_side / max w h, h * max_side / max w h)
  else (w, h)

/-- `compress_image` (lines 46-57): decode, convert mode, resize, re-encode
as JPEG, base64; the media type is always `"image/jpeg"`. -/
def compress_image (decode : Bytes → Option Img) (enc : Img → String)
    (image_bytes : Bytes) (max_side : Nat := 1400) : Option (String × String) :=
  (decode image_bytes).map (fun im =>
    let dims := compressDims im.w im.h max_side
    (enc ⟨dims.1, dims.2⟩, "image/jpeg"))

structure PageImage where
  page : Nat
  data : String
  media_type : String
  placeholder : Bool := false

/-- The PDF loop of lines 138-143: compress each rendered page bitmap in
order, numbering from `pg`; an exception (decode failure) aborts the request. -/
def pdfLoop (decode : Bytes → Option Img) (enc : Img → String) :
    Nat → List Bytes → Option (List PageImage)
  | _, [] => some []
  | pg, b :: rest =>
    match compress_image decode enc b with
    | some (b64, mt) =>
      (pdfLoop decode enc (pg + 1) rest).map
        (fun l => { page := pg, data := b64, media_type := mt } :: l)
    | none => none

/-- The PDF branch: `for i in range(min(len(doc), 30))`, pages numbered from 1. -/
def pdfBranch (decode : Bytes → Option Img) (enc : Img → String)
    (pages : List Bytes) : Option (List PageImage) :=
  pdfLoop decode enc 1 (pages.take 30)

inductive Shape where
  | picture (blob : Bytes) : Shape
  | other : Shape

/-- One slide of the PPTX branch (lines 157-174): compress every picture shape
(a failing blob is skipped by the inner `try`), fall back to a placeholder
when none survive, and keep at most one image (`slide_images[:1]`). -/
def slideOne (decode : Bytes → Option Img) (enc : Img → String)
    (slide_num : Nat) (shapes : List Shape) : List PageImage :=
  let slide_images := shapes.filterMap (fun sh =>
    match sh with
    | Shape.picture blob =>
      (compress_image decode enc blob).map
        (fun p => ({ page := slide_num, data := p.1, media_type := p.2 } : PageImage))
    | Shape.other => none)
  (match slide_images with
   | [] => [({ page := slide_num, data := "", media_type := "image/jpeg",
               placeholder := true } : PageImage)]
   | l => l).take 1

def pptxLoop (decode : Bytes → Option Img) (enc : Img → String) :
    Nat → List (List Shape) → List PageImage
  | _, [] => []
  | n, s :: rest => slideOne decode enc n s ++ pptxLoop decode enc (n + 1) rest

/-- The classified upload: the filename-suffix dispatch of lines 137-189
delivers one of these (rendering and slide scanning by the external
libraries included), or `unsupported` for any other extension. -/
inductive FileContent where
  | pdfDoc (pages : List Bytes) : FileContent
  | rasterImg (content : Bytes) : FileContent
  | slideDeck (slides : List (List Shape)) : FileContent
  | unsupported (filename : String) : FileContent

/-- The `/api/upload` endpoint (lines 129-198): dispatch on the file type,
reject unsupported types and empty results with a 400; an unhandled decode
exception in the PDF or raster branch is the web framework's 500. -/
def upload_file (decode : Bytes → Option Img) (enc : Img → String)
    (f : FileContent) : Except HErr (List PageImage) :=
  match f with
  | FileContent.pdfDoc pages =>
    match pdfBranch decode enc pages with
    | some imgs =>
      (match imgs with
       | [] => Except.error ⟨400, "Could not extract any images from the file."⟩
       | _ => Except.ok imgs)
    | none => Except.error ⟨500, "undecodable page render"⟩
  | FileContent.rasterImg content =>
    match compress_image decode enc content with
    | some p => Except.ok [{ page := 1, data := p.1, media_type := p.2 }]
    | none => Except.error ⟨500, "undecodable image"⟩
  | FileContent.slideDeck slides =>
    let imgs := pptxLoop decode enc 1 slides
    (match imgs with
     | [] => Except.error ⟨400, "Could not extract any images from the file."⟩
     | _ => Except.ok imgs)
  | FileContent.unsupported fn =>
    Except.error ⟨400, "Unsupported file type '" ++ fn ++ "'."⟩

/-! ## Sheet naming (`main.py` lines 60-68) -/

def natStr (n : Nat) : String := String.mk (natDec n)

def isSheetIllegal (c : Char) : Bool :=
  c = '\\' || c = '/' || c = '*' || c = '?' || c = ':' || c = '[' || c = ']'

/-- `re.sub(r"[\\/*?:\[\]]", "_", name)[:28] or "Chart"`. -/
def sheetBase (name : String) : String :=
  match (name.data.map (fun c => if isSheetIllegal c then '_' else c)).take 28 with
  | [] => "Chart"
  | c :: t => String.mk (c :: t)

/-- The `while candidate in existing` loop.  `existing.length + 1` probes
always suffice (the candidates are pairwise distinct), so the fuel never runs
out on the chosen budget. -/
def ssnLoop (base : String) (existing : List String) :
    Nat → String → Nat → String
  | 0, cand, _ => cand
  | fuel + 1, cand, suffix =>
    if cand ∈ existing then
      ssnLoop base existing fuel (base ++ "_" ++ natStr suffix) (suffix + 1)
    else cand

/-- `safe_sheet_name` (lines 60-68). -/
def safe_sheet_name (name : String) (existing : List String) : String :=
  let base := sheetBase name
  ssnLoop base existing (existing.length + 1) base 1

/-! ## `/api/export` (`main.py` lines 259-389) -/

/-- Python truthiness on the modelled values. -/
def pyTruthy : JVal → Bool
  | JVal.null => false
  | JVal.bool b => b
  | JVal.num n => n != 0
  | JVal.str s => s != ""
  | JVal.arr xs => !xs.isEmpty
  | JVal.obj ms => !ms.isEmpty

mutual

/-- `repr` of a modelled value (containers as Python renders them in
f-strings; string escaping inside `repr` is not reproduced — no theorem
depends on container rendering). -/
def pyRepr : JVal → String
  | JVal.null => "None"
  | JVal.bool true => "True"
  | JVal.bool false => "False"
  | JVal.num n => String.mk (intDec n)
  | JVal.str s => String.mk (squote :: (s.data ++ [squote]))
  | JVal.arr xs => "[" ++ pyReprItems xs ++ "]"
  | JVal.obj ms => String.mk [obrace] ++ pyReprMems ms ++ String.mk [cbrace]
termination_by v => sizeOf v

def pyReprItems : List JVal → String
  | [] => ""
  | [x] => pyRepr x
  | x :: xs => pyRepr x ++ ", " ++ pyReprItems xs
termination_by xs => sizeOf xs

def pyReprMems : List (String × JVal) → String
  | [] => ""
  | [(k, v)] => String.mk (squote :: (k.data ++ [squote])) ++ ": " ++ pyRepr v
  | (k, v) :: ms =>
    String.mk (squote :: (k.data ++ [squote])) ++ ": " ++ pyRepr v ++ ", " ++ pyReprMems ms
termination_by ms => sizeOf ms

end

/-- `str(value)` as the f-strings and `csv` stringification use it
(`str` and `repr` agree on scalars). -/
def pyStr : JVal → String
  | JVal.null => "None"
  | JVal.bool true => "True"
  | JVal.bool false => "False"
  | JVal.num n => String.mk (intDec n)
  | JVal.str s => s
  | v => pyRepr v

/-- A `csv.writer` cell: `None` becomes the empty string, everything else
its `str`. -/
def cellStr : JVal → String
  | JVal.null => ""
  | v => pyStr v

/-- `dict` lookup on a chart object (Python dicts have unique keys; the
model takes the first occurrence). -/
def getField (c : JObj) (k : String) : Option JVal :=
  (c.find? (fun kv => kv.1 = k)).map (fun kv => kv.2)

/-- `chart.get(k, dflt)`. -/
def fieldOr (c : JObj) (k : String) (dflt : JVal) : JVal := (getField c k).getD dflt

/-- `chart.get(k) or dflt` (falsy values replaced, unlike `fieldOr`). -/
def orDefault (v : Option JVal) (dflt : JVal) : JVal :=
  match v with
  | some w => if pyTruthy w then w else dflt
  | none => dflt

/-- `title = chart.get("title") or f"Chart {i+1}"` (the raw value). -/
def chartTitleVal (i : Nat) (c : JObj) : JVal :=
  orDefault (getField c "title") (JVal.str ("Chart " ++ natStr (i + 1)))

/-- The title as the f-strings and `safe_sheet_name` consume it.  A truthy
non-string title would raise inside `re.sub`; the model renders it with
`str` instead. -/
def chartTitle (i : Nat) (c : JObj) : String := pyStr (chartTitleVal i c)

def chartTypeVal (c : JObj) : JVal := fieldOr c "type" (JVal.str "unknown")

def chartUnitVal (c : JObj) : JVal := fieldOr c "unit" (JVal.str "")

/-- Coerce to a list; a truthy non-list would raise on concatenation and is
outside the model. -/
def asArr : JVal → List JVal
  | JVal.arr xs => xs
  | _ => []

def asObj : JVal → JObj
  | JVal.obj ms => ms
  | _ => []

/-- `series = chart.get("series") or []`. -/
def chartSeries (c : JObj) : List JVal :=
  asArr (orDefault (getField c "series") (JVal.arr []))

/-- `data = chart.get("data") or []`. -/
def chartData (c : JObj) : List JVal :=
  asArr (orDefault (getField c "data") (JVal.arr []))

/-- `vals.get(s, "")`: JSON object keys are strings, so a non-string series
entry never matches and yields the default. -/
def valsGet (vals : JObj) (s : JVal) : JVal :=
  match s with
  | JVal.str k => fieldOr vals k (JVal.str "")
  | _ => JVal.str ""

/-- `row.get("values") or {}` as a member list. -/
def rowVals (row : JVal) : JObj :=
  asObj (orDefault (getField (asObj row) "values") (JVal.obj []))

/-- The CSV block for one chart (lines 291-309): bracketed metadata row,
blank row, header row, then one row per data point. -/
def csvChartRows (i : Nat) (c : JObj) : List (List String) :=
  let title := chartTitle i c
  let ctype := pyStr (chartTypeVal c)
  let unitV := chartUnitVal c
  let series := chartSeries c
  let data := chartData c
  let tableRows :=
    match series with
    | [] =>
      let lbl := if pyTruthy unitV then "Value (" ++ pyStr unitV ++ ")" else "Value"
      ["Category", lbl] ::
        data.map (fun row =>
          [cellStr (fieldOr (asObj row) "label" (JVal.str "")),
           cellStr (fieldOr (asObj row) "value" (JVal.str ""))])
    | _ =>
      ("Category" :: series.map cellStr) ::
        data.map (fun row =>
          cellStr (fieldOr (asObj row) "label" (JVal.str "")) ::
            series.map (fun s => cellStr (valsGet (rowVals row) s)))
  [["Chart: " ++ title, "Type: " ++ ctype, "Unit: " ++ pyStr unitV], []] ++ tableRows

/-- All CSV rows (lines 288-309): a blank separator row before every chart
but the first. -/
def csvRows : Nat → List JObj → List (List String)
  | _, [] => []
  | i, c :: rest =>
    (if i = 0 then [] else [[]]) ++ csvChartRows i c ++ csvRows (i + 1) rest

/-- `csv.writer` (excel dialect) quoting: quote a field containing the
delimiter, the quote character, or a line-terminator character, doubling
inner quotes. -/
def csvNeedsQuote (s : String) : Bool :=
  s.data.any (fun c => c = ',' || c = '"' || c = '\n' || c = '\r')

def csvField (s : String) : String :=
  if csvNeedsQuote s then
    String.mk ('"' ::
      (s.data.foldr (fun c acc => if c = '"' then '"' :: '"' :: acc else c :: acc) ['"']))
  else s

def csvLine : List String → String
  | [] => ""
  | [x] => csvField x
  | x :: xs => csvField x ++ "," ++ csvLine xs

def crlf : String := String.mk ['\r', '\n']

/-- The `utf-8-sig` byte-order mark of line 311, at character level. -/
def bom : String := String.mk [Char.ofNat 0xFEFF]

/-- The CSV payload: BOM, then every row terminated by CRLF. -/
def csvText (charts : List JObj) : String :=
  bom ++ String.join ((csvRows 0 charts).map (fun r => csvLine r ++ crlf))

/-! ### The spreadsheet branch (lines 319-387); styling and column widths are
presentation-only and not modelled -/

def underscoreSpace (s : String) : String :=
  String.mk (s.data.map (fun c => if c = '_' then ' ' else c))

/-- `str.title()`: uppercase a letter after a non-letter, lowercase after a
letter (ASCII). -/
def pyTitleAux : Bool → List Char → List Char
  | _, [] => []
  | prev, c :: cs =>
    (if c.isAlpha then (if prev then c.toLower else c.toUpper) else c) ::
      pyTitleAux c.isAlpha cs

def pyTitle (s : String) : String := String.mk (pyTitleAux false s.data)

/-- One worksheet's cell rows (lines 340-369): three metadata rows, a blank
row, the header row, then the data rows — the same column layout as CSV but
with raw cell values. -/
def xlsxSheetRows (i : Nat) (c : JObj) : List (List JVal) :=
  let series := chartSeries c
  let data := chartData c
  let headers : List JVal :=
    match series with
    | [] =>
      let lbl := if pyTruthy (chartUnitVal c) then
          "Value (" ++ pyStr (chartUnitVal c) ++ ")"
        else "Value"
      [JVal.str "Category", JVal.str lbl]
    | _ => JVal.str "Category" :: series
  let dataRows :=
    match series with
    | [] =>
      data.map (fun row =>
        [fieldOr (asObj row) "label" (JVal.str ""),
         fieldOr (asObj row) "value" (JVal.str "")])
    | _ =>
      data.map (fun row =>
        fieldOr (asObj row) "label" (JVal.str "") ::
          series.map (fun s => valsGet (rowVals row) s))
  [[JVal.str "Chart", chartTitleVal i c],
   [JVal.str "Type", JVal.str (pyTitle (underscoreSpace (pyStr (chartTypeVal c))))],
   [JVal.str "Unit", chartUnitVal c],
   []] ++ headers :: dataRows

/-- The sheet-building loop (lines 327-338): names are made unique against
the list of names already used in this export. -/
def xlsxSheets : Nat → List String → List JObj → List (String × List (List JVal))
  | _, _, [] => []
  | i, existing, c :: rest =>
    let sname := safe_sheet_name (chartTitle i c) existing
    (sname, xlsxSheetRows i c) :: xlsxSheets (i + 1) (existing ++ [sname]) rest

def sheetNames (charts : List JObj) : List String :=
  (xlsxSheets 0 [] charts).map Prod.fst

/-- The sheet-building loop with the spreadsheet library's title validation:
per chart the unique name is computed and recorded (lines 336-337), then
`wb.create_sheet(title=sname)` (line 338) raises `ValueError` when the title
is longer than 31 characters.  `export_data` does not catch this exception,
so it aborts the loop and surfaces as a 500 response. -/
def xlsxBuild : Nat → List String → List JObj →
    Except HErr (List (String × List (List JVal)))
  | _, _, [] => Except.ok []
  | i, existing, c :: rest =>
    let sname := safe_sheet_name (chartTitle i c) existing
    if sname.length ≤ 31 then
      match xlsxBuild (i + 1) (existing ++ [sname]) rest with
      | Except.ok tail => Except.ok ((sname, xlsxSheetRows i c) :: tail)
      | Except.error e => Except.error e
    else
      Except.error ⟨500, "Title must have less than 32 characters"⟩

inductive ExportPayload where
  | jsonOut (body : String) : ExportPayload
  | csvOut (body : String) : ExportPayload
  | xlsxOut (workbook : List (String × List (List JVal))) : ExportPayload

structure ExportRequest where
  charts : List JObj
  format : String := "xlsx"
  filename : String := "chart_data"

structure ExportResponse where
  payload : ExportPayload
  media_type : String
  disposition : String

def isWordChar (c : Char) : Bool := c.isAlphanum || c = '_'

/-- `re.sub(r"[^\w\-_]", "_", filename) or "chart_data"` (`\w` at ASCII). -/
def sanitizeFilename (s : String) : String :=
  let t := s.data.map (fun c => if isWordChar c || c = '-' then c else '_')
  match t with
  | [] => "chart_data"
  | _ => String.mk t

def pyLower (s : String) : String := String.mk (s.data.map Char.toLower)

/-- `json.dumps(charts, indent=2, ensure_ascii=False)` for the export body. -/
def jsonBody (charts : List JObj) : String :=
  jdump (JVal.arr (charts.map JVal.obj))

/-- The `/api/export` endpoint (lines 265-389). -/
def export_data (req : ExportRequest) : Except HErr ExportResponse :=
  match req.charts with
  | [] => Except.error ⟨400, "No charts provided for export."⟩
  | _ =>
    let fmt := pyLower req.format
    let fn := sanitizeFilename req.filename
    if fmt = "json" then
      Except.ok ⟨ExportPayload.jsonOut (jsonBody req.charts),
        "application/json", fn ++ ".json"⟩
    else if fmt = "csv" then
      Except.ok ⟨ExportPayload.csvOut (csvText req.charts), "text/csv", fn ++ ".csv"⟩
    else if fmt = "xlsx" then
      match xlsxBuild 0 [] req.charts with
      | Except.ok sheets =>
        Except.ok ⟨ExportPayload.xlsxOut sheets,
          "application/vnd.openxmlformats-officedocument.spreadsheetml.sheet",
          fn ++ ".xlsx"⟩
      | Except.error e => Except.error e
    else
      Except.error ⟨400, "Unknown format '" ++ fmt ++ "'. Use xlsx, csv, or json."⟩

/-! ## Properties of sheet naming -/

theorem natDec_inj {m n : Nat} (h : natDec m = natDec n) : m = n := by
  have hm := digitsRun_natDec m [] rfl
  have hn := digitsRun_natDec n [] rfl
  rw [List.append_nil] at hm hn
  rw [h, hn] at hm
  exact (Prod.mk.injEq _ _ _ _ ▸ hm).1.symm

/-- The candidate stream of the `while` loop: the base name, then the
suffixed names in order. -/
def candAt (base : String) (k : Nat) : String :=
  if k = 0 then base else base ++ "_" ++ natStr k

theorem candAt_succ (base : String) (k : Nat) :
    candAt base (k + 1) = base ++ "_" ++ natStr (k + 1) := by
  simp [candAt]

theorem natStr_length_pos (n : Nat) : 1 ≤ (natStr n).length := by
  obtain ⟨c, t, h, _⟩ := natDec_cons n
  simp [natStr, h]

theorem candAt_inj (base : String) : Function.Injective (candAt base) := by
  have hform : ∀ k : Nat, k ≠ 0 → candAt base k = base ++ "_" ++ natStr k := by
    intro k hk
    simp [candAt, hk]
  have hzero : candAt base 0 = base := by simp [candAt]
  have hu : ("_" : String).length = 1 := rfl
  intro j k h
  by_cases hj : j = 0 <;> by_cases hk : k = 0
  · omega
  · exfalso
    rw [hj, hzero, hform k hk] at h
    have hlen := congrArg String.length h
    rw [String.length_append, String.length_append, hu] at hlen
    have := natStr_length_pos k
    omega
  · exfalso
    rw [hk, hzero, hform j hj] at h
    have hlen := congrArg String.length h
    rw [String.length_append, String.length_append, hu] at hlen
    have := natStr_length_pos j
    omega
  · rw [hform j hj, hform k hk] at h
    have hd := congrArg String.data h
    rw [String.data_append, String.data_append, String.data_append, String.data_append,
        List.append_assoc, List.append_assoc] at hd
    have h2 := List.append_cancel_left hd
    rw [show ("_" : String).data = ['_'] from rfl] at h2
    have h3 : (natStr j).data = (natStr k).data := List.append_cancel_left h2
    exact natDec_inj (by simpa [natStr] using h3)

/-- Pigeonhole: fewer than `f` of any `f` consecutive candidates can already
be taken when `existing` has fewer than `f` entries. -/
theorem candFilter_lt (base : String) (ex : List String) (f a : Nat)
    (hf : ex.length < f) :
    ((List.range' a f).filter (fun t => decide (candAt base t ∈ ex))).length < f := by
  set l := (List.range' a f).filter (fun t => decide (candAt base t ∈ ex)) with hl
  have hnodup : l.Nodup := (List.nodup_range' a f).filter _
  have hmap : (l.map (candAt base)).Nodup := hnodup.map (candAt_inj base)
  have hsub : (l.map (candAt base)).toFinset ⊆ ex.toFinset := by
    intro nm hnm
    rw [List.mem_toFinset] at hnm ⊢
    obtain ⟨t, ht, rfl⟩ := List.mem_map.mp hnm
    have := List.of_mem_filter (hl ▸ ht)
    simpa using this
  have hle : l.length ≤ ex.length := by
    calc l.length = (l.map (candAt base)).length := (List.length_map _ _).symm
      _ = (l.map (candAt base)).toFinset.card := (List.toFinset_card_of_nodup hmap).symm
      _ ≤ ex.toFinset.card := Finset.card_le_card hsub
      _ ≤ ex.length := List.toFinset_card_le ex
  omega

theorem ssnLoop_spec (base : String) (ex : List String) :
    ∀ (f a : Nat),
      ((List.range' a f).filter (fun t => decide (candAt base t ∈ ex))).length < f →
      ssnLoop base ex f (candAt base a) (a + 1) ∉ ex
      ∧ ∃ k, a ≤ k ∧ k < a + f
        ∧ ssnLoop base ex f (candAt base a) (a + 1) = candAt base k := by
  intro f
  induction f with
  | zero => intro a h; omega
  | succ f ih =>
    intro a h
    rw [List.range'_succ] at h
    by_cases hmem : candAt base a ∈ ex
    · have hdec : decide (candAt base a ∈ ex) = true := decide_eq_true hmem
      have hcount : ((List.range' (a + 1) f).filter
          (fun t => decide (candAt base t ∈ ex))).length < f := by
        rw [List.filter_cons, hdec] at h
        simp only [if_true, List.length_cons] at h
        omega
      have step : ssnLoop base ex (f + 1) (candAt base a) (a + 1)
          = ssnLoop base ex f (candAt base (a + 1)) (a + 1 + 1) := by
        rw [ssnLoop, if_pos hmem, candAt_succ]
      obtain ⟨h1, k, hk, hk2, h2⟩ := ih (a + 1) hcount
      rw [step]
      exact ⟨h1, k, by omega, by omega, h2⟩
    · have step : ssnLoop base ex (f + 1) (candAt base a) (a + 1) = candAt base a := by
        rw [ssnLoop, if_neg hmem]
      rw [step]
      exact ⟨hmem, a, le_refl a, by omega, rfl⟩

/-- The chosen sheet name is fresh, and is one of the candidates. -/
theorem safe_sheet_name_spec (name : String) (ex : List String) :
    safe_sheet_name name ex ∉ ex
    ∧ ∃ k, k ≤ ex.length ∧ safe_sheet_name name ex = candAt (sheetBase name) k := by
  have h := ssnLoop_spec (sheetBase name) ex (ex.length + 1) 0
    (candFilter_lt _ _ _ _ (by omega))
  rw [show candAt (sheetBase name) 0 = sheetBase name by simp [candAt]] at h
  obtain ⟨h1, k, _, hk2, h2⟩ := h
  exact ⟨h1, k, by omega, h2⟩

/-- Freshness propagates through the sheet-building loop: every produced name
is new, so the name list is duplicate-free. -/
theorem xlsxSheets_names_nodup :
    ∀ (charts : List JObj) (i : Nat) (ex : List String),
      ((xlsxSheets i ex charts).map Prod.fst).Nodup
      ∧ ∀ nm ∈ (xlsxSheets i ex charts).map Prod.fst, nm ∉ ex := by
  intro charts
  induction charts with
  | nil => intro i ex; simp [xlsxSheets]
  | cons c rest ih =>
    intro i ex
    obtain ⟨hfresh, _⟩ := safe_sheet_name_spec (chartTitle i c) ex
    obtain ⟨htail_nodup, htail_notmem⟩ := ih (i + 1) (ex ++ [safe_sheet_name (chartTitle i c) ex])
    constructor
    · rw [show (xlsxSheets i ex (c :: rest)).map Prod.fst
          = safe_sheet_name (chartTitle i c) ex ::
              (xlsxSheets (i + 1) (ex ++ [safe_sheet_name (chartTitle i c) ex]) rest).map
                Prod.fst by simp [xlsxSheets]]
      refine List.nodup_cons.mpr ⟨?_, htail_nodup⟩
      intro hmem
      have := htail_notmem _ hmem
      simp at this
    · intro nm hnm
      rw [show (xlsxSheets i ex (c :: rest)).map Prod.fst
          = safe_sheet_name (chartTitle i c) ex ::
              (xlsxSheets (i + 1) (ex ++ [safe_sheet_name (chartTitle i c) ex]) rest).map
                Prod.fst by simp [xlsxSheets]] at hnm
      rcases List.mem_cons.mp hnm with rfl | hmem
      · exact hfresh
      · intro hnm_ex
        exact (htail_notmem _ hmem) (by simp [hnm_ex])

/-- The sheet names of one export are pairwise distinct. -/
theorem sheetNames_nodup (charts : List JObj) : (sheetNames charts).Nodup :=
  (xlsxSheets_names_nodup charts 0 []).1

/-! ### Sheet-name lengths -/

theorem sheetBase_length (name : String) : (sheetBase name).length ≤ 28 := by
  rw [sheetBase.eq_def]
  split
  · decide
  · rename_i c t heq
    have : (c :: t).length ≤ 28 := by
      rw [← heq]
      simpa using List.length_take_le 28 _
    simpa [String.length] using this

theorem natChars_length : ∀ (f n k : Nat), n < 10 ^ k → (natChars f n).length ≤ k := by
  intro f
  induction f with
  | zero => intro n k _; simp [natChars]
  | succ f ih =>
    intro n k h
    by_cases h0 : n = 0
    · simp [natChars, h0]
    · have hk : 1 ≤ k := by
        by_contra hc
        have : k = 0 := by omega
        subst this
        simp at h
        omega
      have hdiv : n / 10 < 10 ^ (k - 1) := by
        rw [Nat.div_lt_iff_lt_mul (by norm_num)]
        calc n < 10 ^ k := h
          _ = 10 ^ (k - 1) * 10 := by
            rw [← pow_succ]
            congr 1
            omega
      rw [show natChars (f + 1) n = natChars f (n / 10) ++ [digitChar (n % 10)] by
        simp [natChars, h0]]
      have := ih (n / 10) (k - 1) hdiv
      simp only [List.length_append, List.length_singleton]
      omega

theorem natDec_length {n k : Nat} (h : n < 10 ^ k) (hk : 1 ≤ k) :
    (natDec n).length ≤ k := by
  by_cases h0 : n = 0
  · simp [natDec, h0]; omega
  · rw [show natDec n = natChars (n + 1) n by simp [natDec, h0]]
    exact natChars_length _ _ _ h

theorem candAt_length (base : String) (k : Nat) (hb : base.length ≤ 28) (hk : k ≤ 99) :
    (candAt base k).length ≤ 31 := by
  by_cases h0 : k = 0
  · rw [show candAt base k = base by simp [candAt, h0]]
    omega
  · rw [show candAt base k = base ++ "_" ++ natStr k by simp [candAt, h0]]
    rw [String.length_append, String.length_append,
        show ("_" : String).length = 1 from rfl]
    have h2 : (natStr k).length ≤ 2 := by
      have := @natDec_length k 2 (by omega) (by omega)
      simpa [natStr] using this
    omega

/-- As long as at most 100 charts are exported, every sheet name fits in the
31-character limit (the base is truncated to 28 and the suffix stays below
100). -/
theorem xlsxSheets_names_short :
    ∀ (charts : List JObj) (i : Nat) (ex : List String),
      ex.length + charts.length ≤ 100 →
      ∀ nm ∈ (xlsxSheets i ex charts).map Prod.fst, nm.length ≤ 31 := by
  intro charts
  induction charts with
  | nil => intro i ex _ nm hnm; simp [xlsxSheets] at hnm
  | cons c rest ih =>
    intro i ex hbound nm hnm
    rw [show (xlsxSheets i ex (c :: rest)).map Prod.fst
        = safe_sheet_name (chartTitle i c) ex ::
            (xlsxSheets (i + 1) (ex ++ [safe_sheet_name (chartTitle i c) ex]) rest).map
              Prod.fst by simp [xlsxSheets]] at hnm
    rcases List.mem_cons.mp hnm with rfl | hmem
    · obtain ⟨_, k, hk, hck⟩ := safe_sheet_name_spec (chartTitle i c) ex
      rw [hck]
      refine candAt_length _ _ (sheetBase_length _) ?_
      simp at hbound
      omega
    · refine ih (i + 1) _ ?_ nm hmem
      simp at hbound ⊢
      omega

theorem sheetNames_short (charts : List JObj) (h : charts.length ≤ 100) :
    ∀ nm ∈ sheetNames charts, nm.length ≤ 31 :=
  xlsxSheets_names_short charts 0 [] (by simpa using h)

/-! ### A 101-chart export with one long repeated title overflows the
31-character limit: the counterexample sequence -/

def nameSeq (base : String) (k : Nat) : List String :=
  (List.range k).map (candAt base)

theorem candAt_mem_nameSeq (base : String) (j k : Nat) :
    candAt base j ∈ nameSeq base k ↔ j < k := by
  constructor
  · intro h
    obtain ⟨t, ht, he⟩ := List.mem_map.mp h
    have := candAt_inj base he
    subst this
    exact List.mem_range.mp ht
  · intro h
    exact List.mem_map.mpr ⟨j, List.mem_range.mpr h, rfl⟩

theorem ssnLoop_seq (base : String) :
    ∀ (f a k : Nat), a ≤ k → f + a = k + 1 →
      ssnLoop base (nameSeq base k) f (candAt base a) (a + 1) = candAt base k := by
  intro f
  induction f with
  | zero => intro a k ha hf; omega
  | succ f ih =>
    intro a k ha hf
    by_cases hak : a = k
    · subst hak
      rw [ssnLoop, if_neg (by simp [candAt_mem_nameSeq])]
    · have hmem : candAt base a ∈ nameSeq base k :=
        (candAt_mem_nameSeq base a k).mpr (by omega)
      rw [ssnLoop, if_pos hmem, ← candAt_succ]
      exact ih (a + 1) k (by omega) (by omega)

theorem safe_sheet_name_seq (t : String) (k : Nat) :
    safe_sheet_name t (nameSeq (sheetBase t) k) = candAt (sheetBase t) k := by
  unfold safe_sheet_name
  have hlen : (nameSeq (sheetBase t) k).length = k := by simp [nameSeq]
  rw [hlen, show sheetBase t = candAt (sheetBase t) 0 by simp [candAt]]
  exact ssnLoop_seq (sheetBase t) (k + 1) 0 k (by omega) (by omega)

/-- A 28-character title: the truncation `[:28]` keeps all of it, leaving no
room for a 3-digit suffix inside 31 characters. -/
def aTitle : String := String.mk (List.replicate 28 'a')

def demoLongChart : JObj := [("title", JVal.str aTitle)]

theorem chartTitle_demoLong (i : Nat) : chartTitle i demoLongChart = aTitle := rfl

theorem sheetBase_aTitle : sheetBase aTitle = aTitle := by decide

theorem nameSeq_zero (base : String) : nameSeq base 0 = [] := rfl

theorem nameSeq_succ (base : String) (k : Nat) :
    nameSeq base k ++ [candAt base k] = nameSeq base (k + 1) := by
  simp [nameSeq, List.range_succ]

theorem xlsxSheets_rep :
    ∀ (n i k : Nat),
      (xlsxSheets i (nameSeq aTitle k) (List.replicate n demoLongChart)).map Prod.fst
        = (List.range' k n).map (candAt aTitle) := by
  intro n
  induction n with
  | zero => intro i k; simp [xlsxSheets]
  | succ n ih =>
    intro i k
    rw [List.replicate_succ]
    have hname : safe_sheet_name (chartTitle i demoLongChart) (nameSeq aTitle k)
        = candAt aTitle k := by
      rw [chartTitle_demoLong, show nameSeq aTitle k = nameSeq (sheetBase aTitle) k by
        rw [sheetBase_aTitle]]
      rw [safe_sheet_name_seq, sheetBase_aTitle]
    rw [show (xlsxSheets i (nameSeq aTitle k)
          (demoLongChart :: List.replicate n demoLongChart)).map Prod.fst
        = safe_sheet_name (chartTitle i demoLongChart) (nameSeq aTitle k) ::
            (xlsxSheets (i + 1)
              (nameSeq aTitle k ++ [safe_sheet_name (chartTitle i demoLongChart)
                (nameSeq aTitle k)])
              (List.replicate n demoLongChart)).map Prod.fst by simp [xlsxSheets]]
    rw [hname, nameSeq_succ, ih (i + 1) (k + 1), List.range'_succ]
    rfl

theorem sheetNames_rep (n : Nat) :
    sheetNames (List.replicate n demoLongChart)
      = (List.range' 0 n).map (candAt aTitle) := by
  rw [sheetNames, show ([] : List String) = nameSeq aTitle 0 from rfl]
  exact xlsxSheets_rep n 0 0

/-- The 101st identically-titled chart gets the suffix `_100`, giving a
32-character sheet name. -/
theorem overflow_sheet_name :
    candAt aTitle 100 ∈ sheetNames (List.replicate 101 demoLongChart)
    ∧ (candAt aTitle 100).length = 32 := by
  constructor
  · rw [sheetNames_rep]
    exact List.mem_map.mpr ⟨100, by simp [List.mem_range'_1], rfl⟩
  · decide

/-! ## Properties of the image normalizer and upload branches -/

theorem compressDims_le (w h m : Nat) :
    max (compressDims w h m).1 (compressDims w h m).2 ≤ m ∨ max w h ≤ m := by
  by_cases hc : m < max w h
  · left
    have hM : 0 < max w h := by omega
    have h1 : w * m / max w h ≤ m := by
      calc w * m / max w h
          ≤ max w h * m / max w h :=
            Nat.div_le_div_right (Nat.mul_le_mul_right m (le_max_left w h))
        _ = m := Nat.mul_div_cancel_left m hM
    have h2 : h * m / max w h ≤ m := by
      calc h * m / max w h
          ≤ max w h * m / max w h :=
            Nat.div_le_div_right (Nat.mul_le_mul_right m (le_max_right w h))
        _ = m := Nat.mul_div_cancel_left m hM
    rw [compressDims, if_pos hc]
    exact max_le h1 h2
  · right
    omega

theorem compressDims_id {w h m : Nat} (hle : max w h ≤ m) :
    compressDims w h m = (w, h) := by
  rw [compressDims, if_neg (by omega)]

theorem compress_image_media {decode : Bytes → Option Img} {enc : Img → String}
    {b : Bytes} {m : Nat} {p : String × String}
    (h : compress_image decode enc b m = some p) : p.2 = "image/jpeg" := by
  rw [compress_image] at h
  rcases Option.map_eq_some'.mp h with ⟨im, _, heq⟩
  rw [← heq]

theorem pdfLoop_spec (decode : Bytes → Option Img) (enc : Img → String) :
    ∀ (bs : List Bytes) (pg : Nat) (imgs : List PageImage),
      pdfLoop decode enc pg bs = some imgs →
      imgs.length = bs.length
      ∧ imgs.map PageImage.page = List.range' pg bs.length
      ∧ ∀ pi ∈ imgs, pi.media_type = "image/jpeg" := by
  intro bs
  induction bs with
  | nil =>
    intro pg imgs h
    rw [pdfLoop] at h
    cases h
    simp
  | cons b rest ih =>
    intro pg imgs h
    rw [pdfLoop] at h
    cases hcomp : compress_image decode enc b 1400 with
    | none => rw [hcomp] at h; cases h
    | some p =>
      rw [hcomp] at h
      rcases Option.map_eq_some'.mp h with ⟨l, hl, heq⟩
      obtain ⟨hlen, hpages, hmedia⟩ := ih (pg + 1) l hl
      subst heq
      refine ⟨by simp [hlen], ?_, ?_⟩
      · simp only [List.length_cons, List.range'_succ, List.map_cons, hpages]
      · intro pi hpi
        rcases List.mem_cons.mp hpi with rfl | hmem
        · exact compress_image_media hcomp
        · exact hmedia pi hmem

theorem slideOne_length (decode : Bytes → Option Img) (enc : Img → String)
    (n : Nat) (shapes : List Shape) :
    (slideOne decode enc n shapes).length = 1 := by
  rw [slideOne]
  cases h : shapes.filterMap (fun sh =>
    match sh with
    | Shape.picture blob =>
      (compress_image decode enc blob).map
        (fun p => ({ page := n, data := p.1, media_type := p.2 } : PageImage))
    | Shape.other => none) with
  | nil => rfl
  | cons a l => simp

theorem slideOne_mem (decode : Bytes → Option Img) (enc : Img → String)
    (n : Nat) (shapes : List Shape) :
    ∀ pi ∈ slideOne decode enc n shapes,
      pi.page = n ∧ pi.media_type = "image/jpeg" := by
  intro pi hpi
  rw [slideOne] at hpi
  cases h : shapes.filterMap (fun sh =>
    match sh with
    | Shape.picture blob =>
      (compress_image decode enc blob).map
        (fun p => ({ page := n, data := p.1, media_type := p.2 } : PageImage))
    | Shape.other => none) with
  | nil =>
    rw [h] at hpi
    rcases List.mem_cons.mp (List.mem_of_mem_take hpi) with rfl | hc
    · exact ⟨rfl, rfl⟩
    · simp at hc
  | cons a l =>
    rw [h] at hpi
    have hmem : pi ∈ a :: l := List.mem_of_mem_take hpi
    have : pi ∈ shapes.filterMap _ := h ▸ hmem
    rcases List.mem_filterMap.mp this with ⟨sh, _, hsh⟩
    cases sh with
    | other => simp at hsh
    | picture blob =>
      rcases Option.map_eq_some'.mp hsh with ⟨p, hp, heq⟩
      rw [← heq]
      exact ⟨rfl, compress_image_media hp⟩

/-- A slide with no picture shapes yields exactly the placeholder entry. -/
theorem slideOne_placeholder (decode : Bytes → Option Img) (enc : Img → String)
    (n : Nat) (shapes : List Shape) (h : ∀ sh ∈ shapes, sh = Shape.other) :
    slideOne decode enc n shapes
      = [{ page := n, data := "", media_type := "image/jpeg", placeholder := true }] := by
  rw [slideOne]
  have hnil : shapes.filterMap (fun sh =>
      match sh with
      | Shape.picture blob =>
        (compress_image decode enc blob).map
          (fun p => ({ page := n, data := p.1, media_type := p.2 } : PageImage))
      | Shape.other => none) = [] := by
    rw [List.filterMap_eq_nil]
    intro sh hsh
    rw [h sh hsh]
  rw [hnil]
  rfl

theorem pptxLoop_spec (decode : Bytes → Option Img) (enc : Img → String) :
    ∀ (slides : List (List Shape)) (n : Nat),
      (pptxLoop decode enc n slides).length = slides.length
      ∧ (pptxLoop decode enc n slides).map PageImage.page = List.range' n slides.length
      ∧ ∀ pi ∈ pptxLoop decode enc n slides, pi.media_type = "image/jpeg" := by
  intro slides
  induction slides with
  | nil => intro n; simp [pptxLoop]
  | cons s rest ih =>
    intro n
    obtain ⟨ihlen, ihpages, ihmedia⟩ := ih (n + 1)
    have hone := slideOne_length decode enc n s
    have hsingle : ∃ pi, slideOne decode enc n s = [pi] := by
      cases hs : slideOne decode enc n s with
      | nil => rw [hs] at hone; simp at hone
      | cons a l =>
        rw [hs] at hone
        simp at hone
        exact ⟨a, by rw [hone]⟩
    obtain ⟨pi, hpi⟩ := hsingle
    have hpage : pi.page = n := (slideOne_mem decode enc n s pi (by simp [hpi])).1
    rw [pptxLoop, hpi]
    refine ⟨by simp [ihlen], ?_, ?_⟩
    · simp [List.length_cons, List.range'_succ, ihpages, hpage]
    · intro x hx
      rcases List.mem_append.mp hx with hx1 | hx2
      · rcases List.mem_singleton.mp hx1 with rfl
        exact (slideOne_mem decode enc n s x (by simp [hpi])).2
      · exact ihmedia x hx2

/-- Every page image an upload returns carries media type `"image/jpeg"`. -/
theorem upload_media (decode : Bytes → Option Img) (enc : Img → String)
    (f : FileContent) (imgs : List PageImage)
    (h : upload_file decode enc f = Except.ok imgs) :
    ∀ pi ∈ imgs, pi.media_type = "image/jpeg" := by
  intro pi hpi
  cases f with
  | pdfDoc pages =>
    rw [upload_file] at h
    cases hbr : pdfBranch decode enc pages with
    | none => rw [hbr] at h; cases h
    | some l =>
      rw [hbr] at h
      cases l with
      | nil => cases h
      | cons a t =>
        cases h
        exact (pdfLoop_spec decode enc _ _ _ hbr).2.2 pi hpi
  | rasterImg content =>
    rw [upload_file] at h
    cases hc : compress_image decode enc content 1400 with
    | none => rw [hc] at h; cases h
    | some p =>
      rw [hc] at h
      cases h
      rcases List.mem_singleton.mp hpi with rfl
      exact compress_image_media hc
  | slideDeck slides =>
    rw [upload_file] at h
    cases hl : pptxLoop decode enc 1 slides with
    | nil => rw [hl] at h; cases h
    | cons a t =>
      rw [hl] at h
      cases h
      exact (pptxLoop_spec decode enc slides 1).2.2 pi (hl ▸ hpi)
  | unsupported fn => cases h

/-! ## Properties of the extract fallback chain -/

theorem parseReply_direct {raw : String} {v : JVal}
    (h : jparse (stripFences (pyStrip raw)) = some v) : parseReply raw = v := by
  rw [parseReply]
  simp only [h]

theorem parseReply_salvage {raw sub : String} {v : JVal}
    (h1 : jparse (stripFences (pyStrip raw)) = none)
    (h2 : firstBraceSpan (stripFences (pyStrip raw)) = some sub)
    (h3 : jparse sub = some v) : parseReply raw = v := by
  rw [parseReply]
  simp only [h1, h2, h3]
  rfl

theorem parseReply_fallback {raw : String}
    (h1 : jparse (stripFences (pyStrip raw)) = none)
    (h2 : ∀ sub, firstBraceSpan (stripFences (pyStrip raw)) = some sub →
      jparse sub = none) :
    parseReply raw = emptyDoc := by
  rw [parseReply]
  simp only [h1]
  cases hspan : firstBraceSpan (stripFences (pyStrip raw)) with
  | none => rfl
  | some sub =>
    simp only [h2 sub hspan]
    rfl

/-! ## Export error characterization -/

theorem compressDims_max_le (w h m : Nat) :
    max (compressDims w h m).1 (compressDims w h m).2 ≤ m := by
  rcases compressDims_le w h m with h1 | h1
  · exact h1
  · simpa [compressDims_id h1] using h1

theorem xlsxSheets_cons (i : Nat) (existing : List String) (c : JObj)
    (rest : List JObj) :
    xlsxSheets i existing (c :: rest)
      = (safe_sheet_name (chartTitle i c) existing, xlsxSheetRows i c)
        :: xlsxSheets (i + 1)
            (existing ++ [safe_sheet_name (chartTitle i c) existing]) rest := rfl

theorem xlsxBuild_cons (i : Nat) (existing : List String) (c : JObj)
    (rest : List JObj) :
    xlsxBuild i existing (c :: rest)
      = if (safe_sheet_name (chartTitle i c) existing).length ≤ 31 then
          match xlsxBuild (i + 1)
              (existing ++ [safe_sheet_name (chartTitle i c) existing]) rest with
          | Except.ok tail =>
            Except.ok ((safe_sheet_name (chartTitle i c) existing,
              xlsxSheetRows i c) :: tail)
          | Except.error e => Except.error e
        else Except.error ⟨500, "Title must have less than 32 characters"⟩ := rfl

/-- When every generated sheet name is within the 31-character limit, the
sheet-building loop succeeds and produces exactly the sheets of
`xlsxSheets`. -/
theorem xlsxBuild_ok :
    ∀ (charts : List JObj) (i : Nat) (existing : List String),
      (∀ nm ∈ (xlsxSheets i existing charts).map Prod.fst, nm.length ≤ 31) →
      xlsxBuild i existing charts = Except.ok (xlsxSheets i existing charts) := by
  intro charts
  induction charts with
  | nil => intro i existing _; rfl
  | cons c rest ih =>
    intro i existing h
    rw [xlsxSheets_cons] at h ⊢
    rw [xlsxBuild_cons]
    have hhd : (safe_sheet_name (chartTitle i c) existing).length ≤ 31 :=
      h _ (by simp)
    have htl := ih (i + 1)
      (existing ++ [safe_sheet_name (chartTitle i c) existing])
      (fun nm hnm => h nm (by simp only [List.map_cons, List.mem_cons]; right; exact hnm))
    rw [if_pos hhd, htl]

/-- When some generated sheet name exceeds 31 characters, the sheet-building
loop fails. -/
theorem xlsxBuild_err :
    ∀ (charts : List JObj) (i : Nat) (existing : List String),
      (∃ nm ∈ (xlsxSheets i existing charts).map Prod.fst, 31 < nm.length) →
      ∃ e, xlsxBuild i existing charts = Except.error e := by
  intro charts
  induction charts with
  | nil =>
    intro i existing h
    obtain ⟨nm, hmem, -⟩ := h
    simp [xlsxSheets] at hmem
  | cons c rest ih =>
    intro i existing h
    rw [xlsxBuild_cons]
    by_cases hhd : (safe_sheet_name (chartTitle i c) existing).length ≤ 31
    · rw [if_pos hhd]
      obtain ⟨nm, hmem, hlen⟩ := h
      rw [xlsxSheets_cons] at hmem
      simp only [List.map_cons, List.mem_cons] at hmem
      rcases hmem with rfl | hmem
      · omega
      · obtain ⟨e, he⟩ := ih (i + 1)
          (existing ++ [safe_sheet_name (chartTitle i c) existing]) ⟨nm, hmem, hlen⟩
        rw [he]
        exact ⟨e, rfl⟩
    · rw [if_neg hhd]
      exact ⟨_, rfl⟩

/-- The only failure of the sheet-building loop is the library's
title-length `ValueError` (a 500), and it implies that some generated sheet
name exceeds 31 characters. -/
theorem xlsxBuild_err_inv :
    ∀ (charts : List JObj) (i : Nat) (existing : List String) (e : HErr),
      xlsxBuild i existing charts = Except.error e →
      e.code = 500
      ∧ ∃ nm ∈ (xlsxSheets i existing charts).map Prod.fst, 31 < nm.length := by
  intro charts
  induction charts with
  | nil =>
    intro i existing e h
    exact Except.noConfusion h
  | cons c rest ih =>
    intro i existing e h
    rw [xlsxBuild_cons] at h
    by_cases hhd : (safe_sheet_name (chartTitle i c) existing).length ≤ 31
    · rw [if_pos hhd] at h
      cases hres : xlsxBuild (i + 1)
          (existing ++ [safe_sheet_name (chartTitle i c) existing]) rest with
      | ok tail =>
        rw [hres] at h
        exact Except.noConfusion h
      | error e0 =>
        rw [hres] at h
        have he : e0 = e := by
          simpa using h
        subst he
        obtain ⟨hcode, nm, hmem, hlen⟩ := ih (i + 1)
          (existing ++ [safe_sheet_name (chartTitle i c) existing]) e0 hres
        refine ⟨hcode, nm, ?_, hlen⟩
        rw [xlsxSheets_cons]
        simp only [List.map_cons, List.mem_cons]
        right
        exact hmem
    · rw [if_neg hhd] at h
      have he : (⟨500, "Title must have less than 32 characters"⟩ : HErr) = e := by
        simpa using h
      subst he
      refine ⟨rfl, safe_sheet_name (chartTitle i c) existing, ?_, by omega⟩
      rw [xlsxSheets_cons]
      simp

/-- The xlsx branch of `export_data` for a recognized `xlsx` format. -/
theorem export_data_xlsx (c : JObj) (cs : List JObj) (format filename : String)
    (h3 : pyLower format = "xlsx") :
    export_data ⟨c :: cs, format, filename⟩
      = match xlsxBuild 0 [] (c :: cs) with
        | Except.ok sheets =>
          Except.ok ⟨ExportPayload.xlsxOut sheets,
            "application/vnd.openxmlformats-officedocument.spreadsheetml.sheet",
            sanitizeFilename filename ++ ".xlsx"⟩
        | Except.error e => Except.error e := by
  have h1 : pyLower format ≠ "json" := by rw [h3]; decide
  have h2 : pyLower format ≠ "csv" := by rw [h3]; decide
  rw [export_data]
  simp only [h1, h2, h3, if_neg, if_pos, if_true, if_false]
  rw [if_neg (by decide : ¬("xlsx" = "json")), if_neg (by decide : ¬("xlsx" = "csv"))]

theorem export_data_error_iff (charts : List JObj) (format filename : String) :
    (∃ e, export_data ⟨charts, format, filename⟩ = Except.error e)
      ↔ (charts = []
          ∨ (pyLower format ≠ "json" ∧ pyLower format ≠ "csv"
              ∧ pyLower format ≠ "xlsx")
          ∨ (pyLower format = "xlsx"
              ∧ ∃ nm ∈ sheetNames charts, 31 < nm.length)) := by
  cases charts with
  | nil => simp [export_data]
  | cons c cs =>
    by_cases h1 : pyLower format = "json"
    · have h3 : pyLower format ≠ "xlsx" := by rw [h1]; decide
      simp [export_data, h1, h3]
    · by_cases h2 : pyLower format = "csv"
      · have h3 : pyLower format ≠ "xlsx" := by rw [h2]; decide
        simp [export_data, h1, h2, h3]
      · by_cases h3 : pyLower format = "xlsx"
        · rw [export_data_xlsx c cs format filename h3]
          cases hres : xlsxBuild 0 [] (c :: cs) with
          | ok sheets =>
            simp only [hres]
            constructor
            · rintro ⟨e, he⟩
              exact Except.noConfusion he
            · intro hrhs
              rcases hrhs with hnil | hunk | ⟨-, hov⟩
              · exact absurd hnil (by simp)
              · exact absurd h3 hunk.2.2
              · obtain ⟨e, he⟩ := xlsxBuild_err (c :: cs) 0 [] hov
                rw [hres] at he
                exact Except.noConfusion he
          | error e0 =>
            simp only [hres]
            constructor
            · rintro -
              exact Or.inr (Or.inr ⟨h3, (xlsxBuild_err_inv (c :: cs) 0 [] e0 hres).2⟩)
            · intro _
              exact ⟨e0, rfl⟩
        · simp [export_data, h1, h2, h3]

/-- Every failure of `export_data` is either a 400 from an empty chart list
or an unrecognized format, or the 500 that the spreadsheet library's
title-length validation raises on the xlsx path. -/
theorem export_data_error_class (charts : List JObj) (format filename : String)
    (e : HErr) (h : export_data ⟨charts, format, filename⟩ = Except.error e) :
    (e.code = 400 ∧ (charts = [] ∨ pyLower format ≠ "xlsx"))
    ∨ (e.code = 500 ∧ pyLower format = "xlsx"
        ∧ ∃ nm ∈ sheetNames charts, 31 < nm.length) := by
  cases charts with
  | nil =>
    rw [export_data] at h
    cases h
    exact Or.inl ⟨rfl, Or.inl rfl⟩
  | cons c cs =>
    by_cases h1 : pyLower format = "json"
    · rw [export_data] at h
      simp only [h1, if_pos] at h
      cases h
    · by_cases h2 : pyLower format = "csv"
      · rw [export_data] at h
        simp only [h1, h2, if_neg, if_pos, if_true, if_false] at h
        cases h
      · by_cases h3 : pyLower format = "xlsx"
        · rw [export_data_xlsx c cs format filename h3] at h
          cases hres : xlsxBuild 0 [] (c :: cs) with
          | ok sheets =>
            rw [hres] at h
            exact Except.noConfusion h
          | error e0 =>
            rw [hres] at h
            have he : e0 = e := by simpa using h
            subst he
            exact Or.inr ⟨(xlsxBuild_err_inv (c :: cs) 0 [] e0 hres).1, h3,
              (xlsxBuild_err_inv (c :: cs) 0 [] e0 hres).2⟩
        · rw [export_data] at h
          simp only [h1, h2, h3, if_neg, if_false] at h
          cases h
          exact Or.inl ⟨rfl, Or.inr h3⟩


/-- The single-series chart of the spec's CSV example. -/
def salesDemoChart : JObj :=
  [("title", JVal.str "Sales"), ("unit", JVal.str "$"),
   ("data", JVal.arr [JVal.obj [("label", JVal.str "Jan"), ("value", JVal.num 100)]])]

/-! ## The claims -/

/-- Claim C1: for every model response whose text cannot be parsed as JSON
directly, after fence-stripping, or via the first-brace-span salvage, the
`/api/extract` operation returns exactly the document with `has_charts`
false, confidence `0` and no charts, and a JSON parse failure is never
propagated as an error to the caller. -/
theorem extract_parse_failure_returns_empty_doc :
    ∀ (req : ExtractRequest) (raw : String),
      req.image ≠ "" →
      jparse raw = none →
      jparse (stripFences (pyStrip raw)) = none →
      (∀ sub, firstBraceSpan (stripFences (pyStrip raw)) = some sub →
        jparse sub = none) →
      extract_chart req raw = Except.ok emptyDoc := by
  intro req raw himg _ hstripped hsalvage
  rw [extract_chart, if_neg himg, parseReply_fallback hstripped hsalvage]

theorem extract_parse_failure_returns_empty_doc_witness :
    extract_chart { image := "img" } "no charts here" = Except.ok emptyDoc :=
  extract_parse_failure_returns_empty_doc { image := "img" } "no charts here"
    (by decide) rfl rfl
    (fun sub h => by
      rw [show firstBraceSpan (stripFences (pyStrip "no charts here")) = none
        from rfl] at h
      exact Option.noConfusion h)

/-- Claim C3: the response-parsing fallback chain proceeds in order — strip a
single markdown code fence and parse; on failure parse the first greedy
brace span.  A fenced valid-JSON response parses to exactly the fenced
content; leading prose followed by a brace-delimited object yields that
object via the salvage path. -/
theorem extract_fallback_chain_order :
    ∀ (raw sub : String) (v : JVal),
      (jparse (stripFences (pyStrip raw)) = some v → parseReply raw = v)
      ∧ (jparse (stripFences (pyStrip raw)) = none →
          firstBraceSpan (stripFences (pyStrip raw)) = some sub →
          jparse sub = some v → parseReply raw = v) :=
  fun _ _ _ =>
    ⟨fun h => parseReply_direct h, fun h1 h2 h3 => parseReply_salvage h1 h2 h3⟩

theorem extract_fallback_chain_order_witness :
    parseReply "```json\n\x7b\"a\": 1\x7d\n```" = JVal.obj [("a", JVal.num 1)]
    ∧ parseReply "Result:\n\x7b\"a\": 1\x7d" = JVal.obj [("a", JVal.num 1)] :=
  ⟨(extract_fallback_chain_order "```json\n\x7b\"a\": 1\x7d\n```" ""
      (JVal.obj [("a", JVal.num 1)])).1 rfl,
   (extract_fallback_chain_order "Result:\n\x7b\"a\": 1\x7d" "\x7b\"a\": 1\x7d"
      (JVal.obj [("a", JVal.num 1)])).2 rfl rfl rfl⟩

/-- Claim C2 (counterexample): the claim's 31-character bound fails on the
code — 101 charts sharing one 28-character title drive the suffix to `_100`,
so one sheet name has 32 characters. -/
theorem sheet_name_length_counterexample :
    ∃ nm ∈ sheetNames (List.replicate 101 demoLongChart), 31 < nm.length :=
  ⟨candAt aTitle 100, overflow_sheet_name.1, by rw [overflow_sheet_name.2]; omega⟩

/-- Claim C2 (amended): the spreadsheet export assigns pairwise-distinct
sheet names, de-duplicating collisions by an incrementing numeric suffix; the
names stay within 31 characters whenever the export has at most 100 charts
(the base is truncated to 28 characters, so suffixes below 100 fit); and two
charts both titled `"Q1"` get the sheets `"Q1"` and `"Q1_1"`. -/
theorem sheet_names_unique_amended :
    (∀ charts : List JObj, (sheetNames charts).Nodup)
    ∧ (∀ charts : List JObj, charts.length ≤ 100 →
        ∀ nm ∈ sheetNames charts, nm.length ≤ 31)
    ∧ sheetNames [[("title", JVal.str "Q1")], [("title", JVal.str "Q1")]]
        = ["Q1", "Q1_1"] :=
  ⟨sheetNames_nodup, sheetNames_short, rfl⟩

theorem sheet_names_unique_amended_witness :
    (sheetNames [[("title", JVal.str "Q1")], [("title", JVal.str "Q1")]]).Nodup
    ∧ ∀ nm ∈ sheetNames [[("title", JVal.str "Q1")], [("title", JVal.str "Q1")]],
        nm.length ≤ 31 :=
  ⟨sheet_names_unique_amended.1 _, sheet_names_unique_amended.2.1 _ (by decide)⟩

/-- Claim C4: for every decodable input image, the normalizer's output never
exceeds the configured maximum dimension (default 1400) on its longer side,
and an image whose longer side is already at or below the threshold keeps
its dimensions unchanged. -/
theorem normalizer_caps_and_never_upscales :
    ∀ (w h max_side : Nat),
      max (compressDims w h max_side).1 (compressDims w h max_side).2 ≤ max_side
      ∧ (max w h ≤ max_side → compressDims w h max_side = (w, h)) :=
  fun w h m => ⟨compressDims_max_le w h m, fun hle => compressDims_id hle⟩

theorem normalizer_caps_and_never_upscales_witness :
    max (compressDims 2800 1400 1400).1 (compressDims 2800 1400 1400).2 ≤ 1400
    ∧ compressDims 800 600 1400 = (800, 600) :=
  ⟨(normalizer_caps_and_never_upscales 2800 1400 1400).1,
   (normalizer_caps_and_never_upscales 800 600 1400).2 (by decide)⟩

/-- Claim C5: a PDF with more than 30 pages yields exactly 30 page images,
numbered 1 through 30 in order; a PDF with `n ≤ 30` pages yields exactly
`n`, numbered `1..n` in order. -/
theorem pdf_rasterizer_page_cap :
    ∀ (decode : Bytes → Option Img) (enc : Img → String)
      (pages : List Bytes) (imgs : List PageImage),
      pdfBranch decode enc pages = some imgs →
      (30 < pages.length →
        imgs.length = 30 ∧ imgs.map PageImage.page = List.range' 1 30)
      ∧ (pages.length ≤ 30 →
          imgs.length = pages.length
          ∧ imgs.map PageImage.page = List.range' 1 pages.length) := by
  intro decode enc pages imgs h
  obtain ⟨hlen, hpages, _⟩ := pdfLoop_spec decode enc (pages.take 30) 1 imgs h
  have htake : (pages.take 30).length = min 30 pages.length := List.length_take 30 pages
  constructor
  · intro h30
    have hmin : min 30 pages.length = 30 := by omega
    rw [htake, hmin] at hlen hpages
    exact ⟨hlen, hpages⟩
  · intro hle
    have hmin : min 30 pages.length = pages.length := by omega
    rw [htake, hmin] at hlen hpages
    exact ⟨hlen, hpages⟩

theorem pdf_rasterizer_page_cap_witness :
    pdfBranch (fun _ => some ⟨1, 1⟩) (fun _ => "d") (List.replicate 31 ([] : Bytes))
      = some ((List.range' 1 30).map
          (fun p => { page := p, data := "d", media_type := "image/jpeg" }))
    ∧ ((List.range' 1 30).map
        (fun p => ({ page := p, data := "d", media_type := "image/jpeg" } : PageImage))).length
      = 30 := by
  have h : pdfBranch (fun _ => some ⟨1, 1⟩) (fun _ => "d")
      (List.replicate 31 ([] : Bytes))
      = some ((List.range' 1 30).map
          (fun p => { page := p, data := "d", media_type := "image/jpeg" })) := rfl
  refine ⟨h, ?_⟩
  have h30 : (30 : Nat) < (List.replicate 31 ([] : Bytes)).length := by
    rw [List.length_replicate]
    omega
  exact ((pdf_rasterizer_page_cap _ _ _ _ h).1 h30).1

/-- Claim C6: exporting a non-empty chart list as JSON and re-parsing the
payload yields exactly the input charts array, field order and content
preserved. -/
theorem json_export_round_trip :
    ∀ (c : JObj) (cs : List JObj) (fn : String),
      export_data ⟨c :: cs, "json", fn⟩
        = Except.ok ⟨ExportPayload.jsonOut (jsonBody (c :: cs)),
            "application/json", sanitizeFilename fn ++ ".json"⟩
      ∧ jparse (jsonBody (c :: cs)) = some (JVal.arr ((c :: cs).map JVal.obj)) :=
  fun c cs fn => ⟨rfl, jparse_jdump (JVal.arr ((c :: cs).map JVal.obj))⟩

/-- Claim C7: CSV export of the single-series chart titled `"Sales"` with
unit `"$"` and one data point `Jan ↦ 100` yields the header line
`Category,Value ($)` and the data line `Jan,100`; in general a single-series
chart's third row is `Category` with `Value (<unit>)` (or `Value` when the
unit is absent or empty), followed by one row per data point. -/
theorem csv_single_series_block :
    ((csvRows 0 [salesDemoChart]).map csvLine
        = ["Chart: Sales,Type: unknown,Unit: $", "", "Category,Value ($)", "Jan,100"])
    ∧ ∀ (i : Nat) (c : JObj),
        chartSeries c = [] →
        ((chartUnitVal c = JVal.str "" →
            (csvChartRows i c).get? 2 = some ["Category", "Value"])
         ∧ (∀ u : String, chartUnitVal c = JVal.str u → u ≠ "" →
             (csvChartRows i c).get? 2 = some ["Category", "Value (" ++ u ++ ")"])
         ∧ (csvChartRows i c).length = 3 + (chartData c).length) := by
  constructor
  · rfl
  · intro i c hseries
    refine ⟨?_, ?_, ?_⟩
    · intro hunit
      simp [csvChartRows, hseries, hunit, pyTruthy]
    · intro u hunit hu
      simp [csvChartRows, hseries, hunit, pyTruthy, hu, pyStr]
    · simp [csvChartRows, hseries]
      omega

theorem csv_single_series_block_witness :
    (csvChartRows 0 [("title", JVal.str "T")]).get? 2 = some ["Category", "Value"]
    ∧ (csvChartRows 0 salesDemoChart).get? 2 = some ["Category", "Value ($)"] :=
  ⟨(csv_single_series_block.2 0 [("title", JVal.str "T")] rfl).1 rfl,
   (csv_single_series_block.2 0 salesDemoChart rfl).2.1 "$" rfl (by decide)⟩

/-- Claim C8 (counterexample): the claim's "no error for a non-empty list
with format xlsx, csv, or json" direction is false of the program — 101
charts all sharing one 28-character title make a non-empty list and `xlsx`
is a recognized format, yet the export fails: `safe_sheet_name` hands the
101st chart the 32-character name, and `wb.create_sheet` raises the
library's title-length `ValueError`, which `export_data` does not catch, so
the request fails with a 500 rather than succeeding. -/
theorem export_recognized_format_error_counterexample :
    (List.replicate 101 demoLongChart ≠ ([] : List JObj))
    ∧ pyLower "xlsx" = "xlsx"
    ∧ ∃ e, export_data ⟨List.replicate 101 demoLongChart, "xlsx", "chart_data"⟩
        = Except.error e ∧ e.code = 500 := by
  refine ⟨by simp, by decide, ?_⟩
  have hov : ∃ nm ∈ sheetNames (List.replicate 101 demoLongChart), 31 < nm.length :=
    ⟨candAt aTitle 100, overflow_sheet_name.1, by rw [overflow_sheet_name.2]; omega⟩
  obtain ⟨e0, he0⟩ := xlsxBuild_err (List.replicate 101 demoLongChart) 0 [] hov
  have hcode := (xlsxBuild_err_inv (List.replicate 101 demoLongChart) 0 [] e0 he0).1
  have hrepl : List.replicate 101 demoLongChart
      = demoLongChart :: List.replicate 100 demoLongChart := rfl
  refine ⟨e0, ?_, hcode⟩
  rw [hrepl] at he0 ⊢
  rw [export_data_xlsx demoLongChart (List.replicate 100 demoLongChart)
    "xlsx" "chart_data" (by decide), he0]

/-- Claim C8 (amended): the export operation fails if and only if the chart
list is empty, the lower-cased format is none of `json`/`csv`/`xlsx`, or the
format is `xlsx` and some generated sheet name exceeds 31 characters (the
spreadsheet library's title limit); an empty list or unknown format gives a
400-class error, while the overlong sheet name surfaces the library's
failure as a 500. -/
theorem export_error_conditions_amended :
    ∀ (charts : List JObj) (format filename : String),
      ((∃ e, export_data ⟨charts, format, filename⟩ = Except.error e)
        ↔ (charts = []
            ∨ (pyLower format ≠ "json" ∧ pyLower format ≠ "csv"
                ∧ pyLower format ≠ "xlsx")
            ∨ (pyLower format = "xlsx"
                ∧ ∃ nm ∈ sheetNames charts, 31 < nm.length)))
      ∧ ∀ e, export_data ⟨charts, format, filename⟩ = Except.error e →
          ((e.code = 400 ∧ (charts = [] ∨ pyLower format ≠ "xlsx"))
           ∨ (e.code = 500 ∧ pyLower format = "xlsx"
               ∧ ∃ nm ∈ sheetNames charts, 31 < nm.length)) :=
  fun charts format filename =>
    ⟨export_data_error_iff charts format filename,
     fun e h => export_data_error_class charts format filename e h⟩

theorem export_error_conditions_amended_witness :
    (∃ e, export_data ⟨[], "xlsx", "f"⟩ = Except.error e)
    ∧ (∃ e, export_data ⟨[[("title", JVal.str "T")]], "pdf", "f"⟩ = Except.error e)
    ∧ (¬∃ e, export_data ⟨[[("title", JVal.str "T")]], "xlsx", "f"⟩ = Except.error e)
    ∧ (∀ e, export_data ⟨([] : List JObj), "csv", "f"⟩ = Except.error e →
        e.code = 400) := by
  refine ⟨?_, ?_, ?_, ?_⟩
  · exact (export_error_conditions_amended [] "xlsx" "f").1.mpr (Or.inl rfl)
  · exact (export_error_conditions_amended [[("title", JVal.str "T")]] "pdf" "f").1.mpr
      (Or.inr (Or.inl ⟨by decide, by decide, by decide⟩))
  · intro h
    rcases (export_error_conditions_amended
        [[("title", JVal.str "T")]] "xlsx" "f").1.mp h with h1 | h2 | h3
    · exact List.noConfusion h1
    · exact h2.2.2 (by decide)
    · obtain ⟨-, nm, hmem, hlen⟩ := h3
      rw [show sheetNames [[("title", JVal.str "T")]] = ["T"] from rfl,
        List.mem_singleton] at hmem
      subst hmem
      exact absurd hlen (by decide)
  · intro e he
    rcases (export_error_conditions_amended [] "csv" "f").2 e he with hc | hc
    · exact hc.1
    · obtain ⟨-, -, nm, hmem, -⟩ := hc
      rw [show sheetNames ([] : List JObj) = [] from rfl] at hmem
      exact absurd hmem (List.not_mem_nil nm)

/-- Claim C9: in a slide deck, a slide with zero picture shapes yields a page
image with `placeholder = true` and empty data; and every slide contributes
exactly one page image, numbered by its 1-based position. -/
theorem slide_placeholder_and_one_per_slide :
    ∀ (decode : Bytes → Option Img) (enc : Img → String)
      (slides : List (List Shape)),
      (∀ n shapes, (∀ sh ∈ shapes, sh = Shape.other) →
        slideOne decode enc n shapes
          = [{ page := n, data := "", media_type := "image/jpeg",
                placeholder := true }])
      ∧ (∀ n shapes, (slideOne decode enc n shapes).length = 1)
      ∧ (pptxLoop decode enc 1 slides).length = slides.length
      ∧ (pptxLoop decode enc 1 slides).map PageImage.page
          = List.range' 1 slides.length :=
  fun decode enc slides =>
    ⟨fun n shapes h => slideOne_placeholder decode enc n shapes h,
     fun n shapes => slideOne_length decode enc n shapes,
     (pptxLoop_spec decode enc slides 1).1,
     (pptxLoop_spec decode enc slides 1).2.1⟩

theorem slide_placeholder_and_one_per_slide_witness :
    slideOne (fun _ => some ⟨1, 1⟩) (fun _ => "d") 1 [Shape.other]
      = [{ page := 1, data := "", media_type := "image/jpeg", placeholder := true }]
    ∧ (pptxLoop (fun _ => some ⟨1, 1⟩) (fun _ => "d") 1
        [[Shape.other], [Shape.picture []]]).length = 2 :=
  ⟨(slide_placeholder_and_one_per_slide (fun _ => some ⟨1, 1⟩) (fun _ => "d") []).1
     1 [Shape.other] (by intro sh hsh; rw [List.mem_singleton] at hsh; exact hsh),
   (slide_placeholder_and_one_per_slide (fun _ => some ⟨1, 1⟩) (fun _ => "d")
     [[Shape.other], [Shape.picture []]]).2.2.1⟩

/-- Claim C10: every page image returned by a successful upload has media
type `"image/jpeg"`, regardless of the input branch — the normalizer always
re-encodes to JPEG, and placeholders are emitted with the same media type. -/
theorem upload_media_type_always_jpeg :
    ∀ (decode : Bytes → Option Img) (enc : Img → String)
      (f : FileContent) (imgs : List PageImage),
      upload_file decode enc f = Except.ok imgs →
      ∀ pi ∈ imgs, pi.media_type = "image/jpeg" :=
  fun decode enc f imgs h => upload_media decode enc f imgs h

theorem upload_media_type_always_jpeg_witness :
    upload_file (fun _ => some ⟨1, 1⟩) (fun _ => "d") (FileContent.rasterImg [])
      = Except.ok [{ page := 1, data := "d", media_type := "image/jpeg" }]
    ∧ ({ page := 1, data := "d", media_type := "image/jpeg" } : PageImage).media_type
      = "image/jpeg" :=
  ⟨rfl,
   upload_media_type_always_jpeg (fun _ => some ⟨1, 1⟩) (fun _ => "d")
     (FileContent.rasterImg []) [{ page := 1, data := "d", media_type := "image/jpeg" }]
     rfl _ (List.mem_singleton.mpr rfl)⟩

end ChartSpec
